import Mathlib

/-!
Verification of the episode-manager record store (`episode_manager/db.py`).

The development shallowly embeds the parts of `db.py` that the checked
properties talk about:

* the JSON-like document values held in the store (`JVal`), with Python
  dict semantics modelled on association lists (insertion order preserved,
  first occurrence wins, update-in-place keeps the position);
* the metadata sub-record API (`meta_get`, `meta_set`, `meta_del`);
* the migration pipeline `_migrate` (version gates 1..4, the per-record
  update-history sort/dedup pass, the version-<2 list-index assignment);
* the derived state classification `series_state` and the update-due
  heuristic `should_update`;
* the file-system level operations `save`, `load`, `rollback`,
  `_rotate_backups`, `_filename_slot`, `list_backups` over an abstract
  file-system state.

Fallible Python operations are modelled in `Except String`; the error
strings name the Python exception the source would raise there.
Timestamps handled by `should_update` are modelled as integer seconds on
the time axis (`datetime.fromisoformat` becomes reading an integer).
External collaborators (`config.get_int('num-backups')`, `write_json`,
the compressor child process, `now_datetime`) are parameters or oracle
flags of the corresponding definitions.
-/

namespace EpmDb

/-- A JSON-style document value, as parsed by `read_json_obj`.
Python `None` is `JVal.null`; dicts keep their entries in insertion
order, modelled as association lists. -/
inductive JVal where
  | null : JVal
  | boolean : Bool → JVal
  | num : Int → JVal
  | str : String → JVal
  | arr : List JVal → JVal
  | obj : List (String × JVal) → JVal
deriving Repr

mutual

/-- Structural equality of document values (Python `==` restricted to
the document model; dict entries are compared in order, which agrees
with Python on the stores handled here since serialization fixes the
entry order). -/
def JVal.beq : JVal → JVal → Bool
  | .null, .null => true
  | .boolean a, .boolean b => a == b
  | .num a, .num b => a == b
  | .str a, .str b => a == b
  | .arr a, .arr b => JVal.beqArr a b
  | .obj a, .obj b => JVal.beqObj a b
  | _, _ => false

def JVal.beqArr : List JVal → List JVal → Bool
  | [], [] => true
  | x :: xs, y :: ys => JVal.beq x y && JVal.beqArr xs ys
  | _, _ => false

def JVal.beqObj : List (String × JVal) → List (String × JVal) → Bool
  | [], [] => true
  | (k, v) :: xs, (k', v') :: ys => k == k' && JVal.beq v v' && JVal.beqObj xs ys
  | _, _ => false

end

mutual

theorem JVal.eq_of_beq : ∀ (a b : JVal), JVal.beq a b = true → a = b
  | .null, .null, _ => rfl
  | .boolean a, .boolean b, h => by
      simp only [JVal.beq, beq_iff_eq] at h; exact h ▸ rfl
  | .num a, .num b, h => by
      simp only [JVal.beq, beq_iff_eq] at h; exact h ▸ rfl
  | .str a, .str b, h => by
      simp only [JVal.beq, beq_iff_eq] at h; exact h ▸ rfl
  | .arr a, .arr b, h => by
      simp only [JVal.beq] at h
      exact congrArg JVal.arr (JVal.eq_of_beqArr a b h)
  | .obj a, .obj b, h => by
      simp only [JVal.beq] at h
      exact congrArg JVal.obj (JVal.eq_of_beqObj a b h)

theorem JVal.eq_of_beqArr : ∀ (a b : List JVal), JVal.beqArr a b = true → a = b
  | [], [], _ => rfl
  | x :: xs, y :: ys, h => by
      simp only [JVal.beqArr, Bool.and_eq_true] at h
      exact congrArg₂ (· :: ·) (JVal.eq_of_beq x y h.1) (JVal.eq_of_beqArr xs ys h.2)

theorem JVal.eq_of_beqObj : ∀ (a b : List (String × JVal)), JVal.beqObj a b = true → a = b
  | [], [], _ => rfl
  | (k, v) :: xs, (k', v') :: ys, h => by
      simp only [JVal.beqObj, Bool.and_eq_true, beq_iff_eq] at h
      have hv := JVal.eq_of_beq v v' h.1.2
      have hxs := JVal.eq_of_beqObj xs ys h.2
      simp [h.1.1, hv, hxs]

end

mutual

theorem JVal.beq_refl : ∀ (a : JVal), JVal.beq a a = true
  | .null => rfl
  | .boolean a => by simp [JVal.beq]
  | .num a => by simp [JVal.beq]
  | .str a => by simp [JVal.beq]
  | .arr a => JVal.beqArr_refl a
  | .obj a => JVal.beqObj_refl a

theorem JVal.beqArr_refl : ∀ (a : List JVal), JVal.beqArr a a = true
  | [] => rfl
  | x :: xs => by
      simp only [JVal.beqArr, Bool.and_eq_true]
      exact ⟨JVal.beq_refl x, JVal.beqArr_refl xs⟩

theorem JVal.beqObj_refl : ∀ (a : List (String × JVal)), JVal.beqObj a a = true
  | [] => rfl
  | (k, v) :: xs => by
      simp only [JVal.beqObj, Bool.and_eq_true, beq_self_eq_true, true_and]
      exact ⟨JVal.beq_refl v, JVal.beqObj_refl xs⟩

end

theorem JVal.beq_iff (a b : JVal) : JVal.beq a b = true ↔ a = b :=
  ⟨JVal.eq_of_beq a b, fun h => h ▸ JVal.beq_refl a⟩

instance : DecidableEq JVal := fun a b =>
  decidable_of_iff (JVal.beq a b = true) (JVal.beq_iff a b)

instance {ε α : Type} [DecidableEq ε] [DecidableEq α] : DecidableEq (Except ε α) :=
  fun a b =>
    match a, b with
    | .ok x, .ok y => decidable_of_iff (x = y) (by simp)
    | .error e, .error f => decidable_of_iff (e = f) (by simp)
    | .ok _, .error _ => isFalse (by simp)
    | .error _, .ok _ => isFalse (by simp)

/-- A record ("series") is a Python dict from string keys to values. -/
abbrev Rec := List (String × JVal)

/-- The store maps record identifiers (and the reserved metadata
identifier) to records; `read_json_obj` yields a dict of dicts. -/
abbrev Store := List (String × Rec)

/-- Python `d.get(k)` / `k in d`: the first binding of `k` wins. -/
def dGet {α : Type} (l : List (String × α)) (k : String) : Option α :=
  match l with
  | [] => none
  | (k', v) :: rest => if k' = k then some v else dGet rest k

/-- Python `d[k] = v`: replace the first binding of `k` in place
(keeping its position), or append a new binding at the end. -/
def dSet {α : Type} (l : List (String × α)) (k : String) (v : α) : List (String × α) :=
  match l with
  | [] => [(k, v)]
  | (k', v') :: rest => if k' = k then (k, v) :: rest else (k', v') :: dSet rest k v

/-- Python `d.pop(k, None)`: drop the first binding of `k`. -/
def dPop {α : Type} (l : List (String × α)) (k : String) : List (String × α) :=
  match l with
  | [] => []
  | (k', v') :: rest => if k' = k then rest else (k', v') :: dPop rest k

/-- Python `k in d`. -/
def dMem {α : Type} (l : List (String × α)) (k : String) : Bool :=
  (dGet l k).isSome

/-- Python truthiness of a document value (`None`, `False`, `0`, `""`,
`[]`, `{}` are falsy). -/
def pyTruthy : JVal → Bool
  | .null => false
  | .boolean b => b
  | .num n => n != 0
  | .str s => s != ""
  | .arr xs => !xs.isEmpty
  | .obj kvs => !kvs.isEmpty

/-- Python `len(v)`: defined on strings, lists and dicts, a `TypeError`
otherwise (in particular on `None`). -/
def pyLen : JVal → Except String Nat
  | .str s => .ok s.length
  | .arr xs => .ok xs.length
  | .obj kvs => .ok kvs.length
  | _ => .error "TypeError: object has no len()"

/-- Python integer reading used for the stored schema version; a
non-integer version value would make the `<` comparisons raise. -/
def pyInt : JVal → Except String Int
  | .num n => .ok n
  | _ => .error "TypeError: not an int"

def meta_key : String := "epm:meta"
def meta_added_key : String := "added"
def meta_seen_key : String := "seen"
def meta_archived_key : String := "archived"
def meta_list_index_key : String := "list_index"
def meta_next_list_index_key : String := "next_list_index"
def meta_update_check_key : String := "update_check"
def meta_update_history_key : String := "update_history"
def meta_version_key : String := "version"
def meta_changes_log_key : String := "changes_log"

/-- `meta_legacy_keys` of the source, in order. -/
def meta_legacy_keys : List String :=
  [meta_added_key, meta_update_check_key, meta_seen_key, meta_archived_key]

/-- `meta_get(obj, key, def_value)`: `obj.get(meta_key, {}).get(key, def_value)`.
If the metadata value is present but not a dict, the second `.get`
raises `AttributeError`. -/
def meta_get (r : Rec) (key : String) (dflt : JVal := .null) : Except String JVal :=
  match dGet r meta_key with
  | none => .ok dflt
  | some (.obj m) => .ok ((dGet m key).getD dflt)
  | some _ => .error "AttributeError: no attribute get"

/-- `meta_set(obj, key, value)` minus the `set_dirty()` call (callers of
this model set the dirty flag themselves, mirroring the source's
unconditional `set_dirty()` at the top of `meta_set`). -/
def meta_set_val (r : Rec) (key : String) (v : JVal) : Except String Rec :=
  match dGet r meta_key with
  | none => .ok (r ++ [(meta_key, .obj [(key, v)])])
  | some (.obj m) => .ok (dSet r meta_key (.obj (dSet m key v)))
  | some _ => .error "TypeError: item assignment on non-dict"

/-- `meta_del(obj, key)`: sets the dirty flag iff `key in obj.get(meta_key, {})`,
then runs `obj[meta_key].pop(key, None)` — which raises `KeyError` when
the reserved metadata key is absent from `obj` altogether. -/
def meta_del (r : Rec) (key : String) (dirty : Bool) : Except String (Rec × Bool) :=
  match dGet r meta_key with
  | none =>
      -- `key in {}` is false, so the dirty flag is untouched; then
      -- `obj[meta_key]` raises.
      .error "KeyError: epm:meta"
  | some (.obj m) =>
      let dirty' := if dMem m key then true else dirty
      .ok (dSet r meta_key (.obj (dPop m key)), dirty')
  | some _ => .error "AttributeError: no attribute pop"

def DB_VERSION : Int := 4

/-- Python `meta_get(series, meta_archived_key) == True` (db.py line 126):
`==` against `True` also holds for the integer `1`. -/
def pyEqTrue (v : JVal) : Prop := v = .boolean true ∨ v = .num 1

instance (v : JVal) : Decidable (pyEqTrue v) := by unfold pyEqTrue; infer_instance

/-- Collect the entries of a history list when they are all timestamp
strings (the update-history entries of the document format). -/
def asStrList : List JVal → Option (List String)
  | [] => some []
  | .str s :: rest => (asStrList rest).map (s :: ·)
  | _ :: _ => none

/-- Python's `str <= str`: lexicographic comparison by Unicode code
point, spelled out on the character lists so that it evaluates by
kernel reduction. -/
def strLEb : List Char → List Char → Bool
  | [], _ => true
  | _ :: _, [] => false
  | a :: as, b :: bs =>
      if a.toNat < b.toNat then true
      else if b.toNat < a.toNat then false
      else strLEb as bs

def strLE (a b : String) : Bool := strLEb a.data b.data

def strLEr (a b : String) : Prop := strLE a b = true

instance : DecidableRel strLEr := fun a b => Bool.decEq (strLE a b) true

theorem strLEb_refl : ∀ a, strLEb a a = true := by
  intro a
  induction a with
  | nil => rfl
  | cons x as ih => simp [strLEb, ih]

theorem strLEb_total : ∀ a b, strLEb a b = true ∨ strLEb b a = true := by
  intro a
  induction a with
  | nil => intro b; left; rfl
  | cons x as ih =>
      intro b
      cases b with
      | nil => right; rfl
      | cons y bs =>
          by_cases h1 : x.toNat < y.toNat
          · left; simp [strLEb, h1]
          · by_cases h2 : y.toNat < x.toNat
            · right; simp [strLEb, h2]
            · rcases ih bs with h | h
              · left; simp [strLEb, h1, h2, h]
              · right; simp [strLEb, h1, h2, h]

theorem strLEb_trans : ∀ a b c, strLEb a b = true → strLEb b c = true →
    strLEb a c = true := by
  intro a
  induction a with
  | nil => intro b c _ _; rfl
  | cons x as ih =>
      intro b c hab hbc
      cases b with
      | nil => simp [strLEb] at hab
      | cons y bs =>
          cases c with
          | nil => simp [strLEb] at hbc
          | cons z cs =>
              simp only [strLEb] at hab hbc ⊢
              by_cases hxy : x.toNat < y.toNat
              · rw [if_pos hxy] at hab
                by_cases hyz : y.toNat < z.toNat
                · rw [if_pos (by omega : x.toNat < z.toNat)]
                · by_cases hzy : z.toNat < y.toNat
                  · rw [if_neg hyz, if_pos hzy] at hbc
                    simp at hbc
                  · rw [if_pos (by omega : x.toNat < z.toNat)]
              · by_cases hyx : y.toNat < x.toNat
                · rw [if_neg hxy, if_pos hyx] at hab
                  simp at hab
                · by_cases hyz : y.toNat < z.toNat
                  · rw [if_pos (by omega : x.toNat < z.toNat)]
                  · by_cases hzy : z.toNat < y.toNat
                    · rw [if_neg hyz, if_pos hzy] at hbc
                      simp at hbc
                    · rw [if_neg hxy, if_neg hyx] at hab
                      rw [if_neg hyz, if_neg hzy] at hbc
                      rw [if_neg (by omega : ¬ x.toNat < z.toNat),
                          if_neg (by omega : ¬ z.toNat < x.toNat)]
                      exact ih bs cs hab hbc

instance : IsRefl String strLEr := ⟨fun a => strLEb_refl a.data⟩
instance : IsTotal String strLEr := ⟨fun a b => strLEb_total a.data b.data⟩
instance : IsTrans String strLEr := ⟨fun a b c => strLEb_trans a.data b.data c.data⟩

/-- `history.sort()` (db.py line 170).  Python performs no comparison on
lists of length at most 1; on longer lists every element takes part in a
comparison, so any non-string entry among the timestamp strings raises
`TypeError`.  (Lists consisting entirely of numbers would also sort in
Python; they are outside the document format for update-history and are
modelled as unorderable.)  The sort is stable and ascending. -/
def pySortJ (xs : List JVal) : Except String (List JVal) :=
  if xs.length ≤ 1 then .ok xs
  else
    match asStrList xs with
    | some ss => .ok ((ss.insertionSort strLEr).map JVal.str)
    | none => .error "TypeError: unorderable types in sort"

/-- The duplicate-removal loop of `_migrate` (db.py lines 171-178),
modelled on the split `history = done ++ rest` with `idx = done.length`:
`history[idx - 1]` is `done.getLast?` and `history[idx]` is the head of
`rest`.  `del history[idx - 1]` keeps `idx`, which re-splits the list as
`(done.dropLast ++ [head], tail)`; the `else` arm steps `idx`, moving
the head into `done`. -/
def dedupLoop : List JVal → List JVal → Nat → List JVal × Nat
  | done, [], mods => (done, mods)
  | done, x :: rest, mods =>
    if done.length + (x :: rest).length < 2 then (done ++ x :: rest, mods)
    else if 0 < done.length ∧ done.getLast? = some x then
      dedupLoop (done.dropLast ++ [x]) rest (mods + 1)
    else
      dedupLoop (done ++ [x]) rest mods

mutual

/-- `_del_empty` (db.py lines 152-164): recursively drop dict entries
whose value is null, counting removals; list elements are recursed into
but never removed themselves, and scalars are untouched. -/
def delEmptyV : JVal → JVal × Nat
  | .arr xs => let p := delEmptyArr xs; (.arr p.1, p.2)
  | .obj kvs => let p := delEmptyObj kvs; (.obj p.1, p.2)
  | v => (v, 0)

def delEmptyArr : List JVal → List JVal × Nat
  | [] => ([], 0)
  | x :: xs =>
    let p := delEmptyV x
    let q := delEmptyArr xs
    (p.1 :: q.1, p.2 + q.2)

def delEmptyObj : List (String × JVal) → List (String × JVal) × Nat
  | [] => ([], 0)
  | (k, v) :: rest =>
    if v = .null then
      let q := delEmptyObj rest
      (q.1, q.2 + 1)
    else
      let p := delEmptyV v
      let q := delEmptyObj rest
      ((k, p.1) :: q.1, p.2 + q.2)

end

/-- The maximum-timestamp fold of the version-<1 "archived" fix
(db.py lines 129-134): Python compares the seen-map values with `>`,
which raises `TypeError` on a non-string value. -/
def lastSeenMax : List JVal → String → Except String String
  | [], acc => .ok acc
  | .str s :: rest, acc => lastSeenMax rest (if acc < s then s else acc)
  | _ :: _, _ => .error "TypeError: unorderable types"

/-- Write the (in-place mutated) update-history list back into the
record's metadata dict.  The list was obtained from that dict, so the
metadata value is a dict whenever this is reached; the fallback arm is
unreachable and returns the record unchanged. -/
def recWithHistory (r : Rec) (v : JVal) : Rec :=
  match dGet r meta_key with
  | some (.obj m) => dSet r meta_key (.obj (dSet m meta_update_history_key v))
  | _ => r

/-- The every-version update-history pass of `_migrate`
(db.py lines 168-182): `len(history)` raises `TypeError` on a record
whose update-history is absent (`meta_get` returns `None`); a list with
at least two entries is sorted in place and exact adjacent duplicates
are removed.  Returns the record with the mutated list written back and
the number of removed duplicates. -/
def historyPass (r : Rec) : Except String (Rec × Nat) := do
  let h ← meta_get r meta_update_history_key
  let n ← pyLen h
  if 2 ≤ n then
    match h with
    | .arr xs => do
        let sorted ← pySortJ xs
        let p := dedupLoop [] sorted 0
        .ok (recWithHistory r (.arr p.1), p.2)
    | _ => .error "AttributeError: no attribute sort"
  else
    .ok (r, 0)

/-- The per-pass correction counters of `_migrate`
(`fixed_legacy_meta`, `fixed_archived`, `fixed_update_history`,
`fixed_nulls`, `fixed_update_history_dups`). -/
structure MigCounts where
  legacy : Nat := 0
  archived : Nat := 0
  updhist : Nat := 0
  nulls : Nat := 0
  dups : Nat := 0
deriving Repr, DecidableEq

/-- One iteration of the per-record loop of `_migrate`
(db.py lines 114-182), with the store version read beforehand.  Returns
the updated record, counters and dirty flag. -/
def migrateRecord (dbv : Int) (r0 : Rec) (c0 : MigCounts) (d0 : Bool) :
    Except String (Rec × MigCounts × Bool) := do
  -- db_version < 1: move the legacy top-level keys into the metadata
  -- sub-record (dict comprehension over meta_legacy_keys, db.py 118-124)
  let s1 :=
    if dbv < 1 ∧ ¬ dMem r0 meta_key then
      (dSet (meta_legacy_keys.foldl dPop r0) meta_key
         (.obj (meta_legacy_keys.filterMap fun k => (dGet r0 k).map ((k, ·)))),
       { c0 with legacy := c0.legacy + 1 })
    else (r0, c0)
  let r1 := s1.1
  let c1 := s1.2
  -- db_version < 1: fix a boolean "archived" value into the latest
  -- watched-episode timestamp (db.py 126-136)
  let s2 ←
    (if dbv < 1 then do
      let av ← meta_get r1 meta_archived_key
      if pyEqTrue av then do
        let seen ← meta_get r1 meta_seen_key
        match seen with
        | .obj m => do
            let last ← lastSeenMax (m.map Prod.snd) "0000-00-00 00:00:00"
            let r' ← meta_set_val r1 meta_archived_key (.str last)
            pure (r', { c1 with archived := c1.archived + 1 }, true)
        | _ => .error "AttributeError: no attribute values"
      else pure (r1, c1, d0)
    else pure (r1, c1, d0) : Except String (Rec × MigCounts × Bool))
  -- db_version < 3: rename the legacy 'updated' key, seed the update
  -- history, drop the redundant 'id' field (db.py 138-149)
  let s3 ←
    (if dbv < 3 then do
      let lastUpd ← meta_get s2.1 "updated"
      let sa ←
        (if pyTruthy lastUpd then do
          let r' ← meta_set_val s2.1 meta_update_check_key lastUpd
          meta_del r' "updated" true
        else pure (s2.1, s2.2.2) : Except String (Rec × Bool))
      let hist ← meta_get sa.1 meta_update_history_key
      let sb ←
        (if ¬ pyTruthy hist ∧ pyTruthy lastUpd then do
          let r' ← meta_set_val sa.1 meta_update_history_key (.arr [lastUpd])
          pure (r', { s2.2.1 with updhist := s2.2.1.updhist + 1 }, true)
        else pure (sa.1, s2.2.1, sa.2) : Except String (Rec × MigCounts × Bool))
      pure (dPop sb.1 "id", sb.2.1, sb.2.2)
    else pure s2 : Except String (Rec × MigCounts × Bool))
  -- db_version < 4: strip explicit nulls everywhere (db.py 151-166)
  let s4 :=
    if dbv < 4 then
      ((delEmptyObj s3.1).1, { s3.2.1 with nulls := s3.2.1.nulls + (delEmptyObj s3.1).2 })
    else (s3.1, s3.2.1)
  -- every pass: sort the update history and drop duplicates (db.py 168-182)
  let s5 ← historyPass s4.1
  pure (s5.1, { s4.2 with dups := s4.2.dups + s5.2 }, s3.2.2)

/-- `all_ids(db)`: every key except the reserved metadata key
(db.py 690-695). -/
def all_ids (db : Store) : List String :=
  (db.map Prod.fst).filter (· ≠ meta_key)

/-- The per-record loop of `_migrate`, folding `migrateRecord` over the
identifier list; the `series` reference mutation of the source becomes
an explicit write-back into the store. -/
def migrateAll (dbv : Int) : List String → Store → MigCounts → Bool →
    Except String (Store × MigCounts × Bool)
  | [], db, c, d => .ok (db, c, d)
  | id :: rest, db, c, d => do
      let s ← migrateRecord dbv ((dGet db id).getD []) c d
      migrateAll dbv rest (dSet db id s.1) s.2.1 s.2.2

/-- `db[meta_key].get('version', 0)` (db.py line 106). -/
def storeVersion (db : Store) : Except String Int :=
  pyInt ((dGet ((dGet db meta_key).getD []) meta_version_key).getD (.num 0))

/-- `meta_set(db, key, value)` applied to the store root: creates the
reserved entry when absent, then assigns into it (always total here
since store values are dicts by construction). -/
def store_meta_set (db : Store) (key : String) (v : JVal) : Store :=
  let db' := if dMem db meta_key then db else dSet db meta_key []
  dSet db' meta_key (dSet ((dGet db' meta_key).getD []) key v)

/-- `sorted(db.values(), key=lambda series: meta_get(series, meta_added_key))`
(db.py line 187).  Python evaluates the key function on every element
first (possibly raising `AttributeError`), then sorts; with at least two
elements any non-string key raises `TypeError` in a comparison — and the
reserved metadata record, which `db.values()` includes, always
contributes `None` as its key.  The sort is stable; the association keys
are kept alongside so the in-place `meta_set` on each sorted record can
be written back. -/
def mapExcept {α β : Type} (f : α → Except String β) : List α → Except String (List β)
  | [] => .ok []
  | a :: rest => do
      let b ← f a
      let bs ← mapExcept f rest
      pure (b :: bs)

def mapOption {α β : Type} (f : α → Option β) : List α → Option (List β)
  | [] => some []
  | a :: rest =>
      match f a, mapOption f rest with
      | some b, some bs => some (b :: bs)
      | _, _ => none

def sortByAdded (db : Store) : Except String (List (String × Rec)) := do
  let keyed ← mapExcept (fun e => do
      let k ← meta_get e.2 meta_added_key
      pure (k, e)) db
  if db.length ≤ 1 then
    pure (keyed.map Prod.snd)
  else
    match mapOption (fun p =>
        match p.1 with
        | JVal.str s => some (s, p.2)
        | _ => none) keyed with
    | some ks => pure ((ks.insertionSort (fun a b => strLEr a.1 b.1)).map Prod.snd)
    | none => .error "TypeError: unorderable types in sort"

/-- The list-index assignment loop of the version-<2 pass
(db.py 186-189): number the sorted records from 1, writing each index
through `meta_set`. -/
def assignIndexes : Store → List (String × Rec) → Int → Except String (Store × Int)
  | db, [], i => .ok (db, i)
  | db, e :: rest, i => do
      let r' ← meta_set_val e.2 meta_list_index_key (.num i)
      assignIndexes (dSet db e.1 r') rest (i + 1)

/-- `_migrate(db)` (db.py lines 100-219), threading the process-wide
dirty flag explicitly.  Returns the migrated store and the new dirty
flag, or the Python exception the source would raise. -/
def migrate (db0 : Store) (d0 : Bool) : Except String (Store × Bool) := do
  -- no db meta data, yikes! (db.py 102-104)
  let s1 :=
    if dMem db0 meta_key then (db0, d0) else (dSet db0 meta_key [], true)
  let db1 := s1.1
  let dbv ← storeVersion db1
  -- per-record pass (db.py 114-182)
  let s2 ← migrateAll dbv (all_ids db1) db1 {} s1.2
  let db2 := s2.1
  let c := s2.2.1
  -- db_version < 2: assign list index in added time order (db.py 184-190)
  let s3 ←
    (if dbv < 2 then do
      let sortedRecs ← sortByAdded db2
      let sa ← assignIndexes db2 sortedRecs 1
      pure (sa.1, sa.2, true)
    else pure (db2, 1, s2.2.2) : Except String (Store × Int × Bool))
  -- if no version exists, set to current version (db.py 193-195)
  let s4 :=
    if dbv ≠ DB_VERSION then
      (store_meta_set s3.1 meta_version_key (.num DB_VERSION), true)
    else (s3.1, s3.2.2)
  -- db_version < 2: store the next free index (db.py 197-199)
  let s5 :=
    if dbv < 2 then
      (store_meta_set s4.1 meta_next_list_index_key (.num s3.2.1), true)
    else s4
  -- report-and-mark-dirty epilogue (db.py 201-219)
  let d6 := if c.legacy ≠ 0 then true else s5.2
  let d7 := if c.archived ≠ 0 then true else d6
  let d8 := if c.updhist ≠ 0 then true else d7
  let d9 := if c.nulls ≠ 0 then true else d8
  let d10 := if c.dups ≠ 0 then true else d9
  pure (s5.1, d10)

/-! ## State derivation and the update-due heuristic -/

/-- The `State` bitmask (db.py 502-509). -/
def PLANNED : Nat := 0x01
def STARTED : Nat := 0x02
def COMPLETED : Nat := 0x04
def ARCHIVED : Nat := 0x08
def ABANDONED : Nat := 0x10 ||| ARCHIVED
def ACTIVE : Nat := PLANNED ||| STARTED

/-- `meta_has(obj, key)`: `meta_get(obj, key, None) is not None`
(db.py 464-465). -/
def meta_has (r : Rec) (key : String) : Except String Bool := do
  let v ← meta_get r key
  pure (v ≠ .null)

/-- `series_state(series)` (db.py 698-718).  `num_seen` is the raw size
of the watched-episode map — sentinel `"S"` season markers included —
and `num_unseen` is the (possibly negative) integer difference. -/
def series_state (r : Rec) : Except String Nat := do
  let isArchived ← meta_has r meta_archived_key
  let status := (dGet r "status").getD .null
  let isEnded := status = JVal.str "ended" ∨ status = JVal.str "canceled"
  let numEpisodes ← pyLen ((dGet r "episodes").getD (.arr []))
  let seen ← meta_get r meta_seen_key (.obj [])
  let numSeen ← pyLen seen
  let numUnseen : Int := (numEpisodes : Int) - (numSeen : Int)
  if isArchived then
    if 0 < numUnseen then pure ABANDONED else pure ARCHIVED
  else if numSeen ≠ 0 then
    if numUnseen = 0 ∧ isEnded then pure COMPLETED else pure STARTED
  else
    pure PLANNED

def HOUR : Int := 3600
def DAY : Int := 24 * HOUR
def WEEK : Int := 7 * DAY

/-- `datetime.fromisoformat` over the model's time axis: timestamps are
modelled as integer seconds, so parsing reads the integer; any other
value raises. -/
def fromIso : JVal → Except String Int
  | .num n => .ok n
  | _ => .error "ValueError: invalid isoformat"

/-- The `update_interval_sum` loop of `should_update` (db.py 768-770):
sum of the differences of consecutive history entries. -/
def consecDiffSum : List JVal → Except String Int
  | x :: y :: rest => do
      let a ← fromIso x
      let b ← fromIso y
      let s ← consecDiffSum (y :: rest)
      pure ((b - a) + s)
  | _ => .ok 0

/-- `should_update(series)` (db.py 725-792) with `now_datetime()` passed
in as `now`.  The interval is the exact rational `num/den` seconds
(Python's `timedelta` arithmetic): the mean-gap branch keeps the
denominator `len - 1` and every comparison is done by
cross-multiplication (the denominators are positive), so the truth
values agree with the rational ones.  Note that both branches cap at
`simple_age_cap = 2*WEEK` (db.py 754, 772, 778) even though the
source's own comment (db.py 731) documents a 2-day cap for the
single-entry branch. -/
def should_update (r : Rec) (now : Int) : Except String Bool := do
  let lastCheck0 ← meta_get r meta_update_check_key
  if ¬ pyTruthy lastCheck0 then pure true
  else do
    let st ← series_state r
    if 0 < st &&& (ARCHIVED ||| COMPLETED) then pure false
    else
      let status := (dGet r "status").getD .null
      if status = JVal.str "ended" ∨ status = JVal.str "canceled" then pure false
      else do
        let lastCheck ← fromIso lastCheck0
        let simpleAgeCap : Int := 2 * WEEK
        let hist0 ← meta_get r meta_update_history_key
        if ¬ pyTruthy hist0 then pure true
        else
          match hist0 with
          | .arr xs => do
              let lastUpdate ← fromIso ((xs.getLast?).getD .null)
              let iv : Int × Int ←
                if 2 ≤ xs.length then do
                  -- update_interval = update_interval_sum / (len - 1),
                  -- capped when its total seconds reach simple_age_cap
                  let diffs ← consecDiffSum xs
                  let den : Int := (xs.length : Int) - 1
                  pure (if simpleAgeCap * den ≤ diffs then (simpleAgeCap, (1 : Int))
                        else (diffs, den))
                else
                  -- update_interval = now - last_update, capped at
                  -- simple_age_cap as well (db.py 777-780)
                  let age := now - lastUpdate
                  pure (if simpleAgeCap ≤ age then (simpleAgeCap, (1 : Int))
                        else (age, 1))
              -- expired = now > last_check + update_interval
              pure (decide ((now - lastCheck) * iv.2 > iv.1))
          | _ => .error "TypeError: not a history list"

/-! ## The file-system layer: save, rotation, rollback, load -/

/-- The file paths `db.py` manipulates.  `_filename_slot(base, idx)`
appends a dotted slot index plus the compressor extension to the base
name (db.py 358-362); since base path and extension are fixed for the
process this naming is injective in its arguments, which the
constructor form captures — note `slotted` composes, so the name
`_filename_slot(active_file(), 1)` built by `rollback` is a different
path from `_filename_slot(base_filename(), 1)`.  `basefile` is the
uncompressed `config.get('paths/series-db')` path, `tmpf k` the `k`-th
`mkstemp` file, `oldloc` the legacy install path. -/
inductive DbPath where
  | basefile : DbPath
  | slotted : DbPath → Nat → DbPath
  | tmpf : Nat → DbPath
  | oldloc : DbPath
deriving DecidableEq, Repr

/-- `_filename_slot(base_name, idx)` (db.py 358-362). -/
def filename_slot (base : DbPath) (idx : Nat) : DbPath := .slotted base idx

/-- `active_file()` = `_filename_slot(base_filename(), 0)` (db.py 37-38). -/
def active_file : DbPath := filename_slot .basefile 0

/-- File-system state: contents by path.  Contents are plain strings;
`write_json` serializes the store to a string, and the compressor child
is modelled as content-preserving (only the intactness of a snapshot
matters to the claims, not its encoding). -/
def FS := DbPath → Option String

/-- Create or truncate a file. -/
def FS.write (fs : FS) (p : DbPath) (c : String) : FS :=
  fun q => if q = p then some c else fs q

/-- `os.remove` (total here; every use in `save` removes a file the
function just created). -/
def FS.erase (fs : FS) (p : DbPath) : FS :=
  fun q => if q = p then none else fs q

/-- `os.rename(src, dst)`: raises `FileNotFoundError` when the source
is missing, and silently replaces any existing destination. -/
def FS.rename (fs : FS) (src dst : DbPath) : Except String FS :=
  match fs src with
  | none => .error "FileNotFoundError"
  | some c => .ok (fun q => if q = dst then some c else if q = src then none else fs q)

/-- `_rotate_backups(base_name)` (db.py 365-370): walk the slot indices
from `num-backups - 1` down to 1, renaming slot `i` onto slot `i + 1`
whenever slot `i` exists.  `rotateFrom k` processes `k, k-1, ..., 1`. -/
def rotateFrom : Nat → FS → FS
  | 0, fs => fs
  | k + 1, fs =>
      let fs' :=
        match fs (filename_slot .basefile (k + 1)) with
        | some c => fun q =>
            if q = filename_slot .basefile (k + 2) then some c
            else if q = filename_slot .basefile (k + 1) then none
            else fs q
        | none => fs
      rotateFrom k fs'

def rotate_backups (numBackups : Nat) (fs : FS) : FS :=
  rotateFrom (numBackups - 1) fs

inductive SaveOutcome where
  | skipped        -- not dirty: no-op return (db.py 375-377)
  | writeFailed    -- write_json returned an error (db.py 392-395)
  | compressFailed -- compress_file failed: both temp files removed (db.py 405-408)
  | renameRaised   -- an os.rename raised FileNotFoundError
  | ok
deriving DecidableEq, Repr

/-- `save(db)` (db.py 373-417) over the file-system state.  The store
enters as its serialized form `s`; `writeErr` is true when `write_json`
returns an error, `compOk` is the compressor child's success, `t1`/`t2`
identify the two `mkstemp` files (created empty on disk), `numBackups`
is `config.get_int('num-backups')`.  Inside `_run_compressor`
(db.py 281-317) a success removes the source file and fills the
destination; a failure is caught, leaving both files for `save` to
remove.  Returns the outcome, the file system and the dirty flag. -/
def save (s : String) (writeErr compOk : Bool) (t1 t2 numBackups : Nat)
    (dirty : Bool) (fs : FS) : SaveOutcome × FS × Bool :=
  if ¬ dirty then (.skipped, fs, dirty)
  else
    -- set_dirty(False) happens before any further I/O (db.py 379)
    let fs1 := fs.write (.tmpf t1) ""                    -- mkstemp (db.py 387)
    if writeErr then
      (.writeFailed, fs1.erase (.tmpf t1), false)        -- db.py 392-395
    else
      let fs2 := fs1.write (.tmpf t1) s                  -- write_json (db.py 390)
      match fs2.rename active_file (filename_slot .basefile 1) with -- db.py 402
      | .error _ => (.renameRaised, fs2, false)
      | .ok fs3 =>
          let fs4 := fs3.write (.tmpf t2) ""             -- second mkstemp (db.py 404)
          if compOk then
            let fs5 := (fs4.write (.tmpf t2) s).erase (.tmpf t1)
            let fs6 := rotate_backups numBackups fs5     -- db.py 410
            match fs6.rename (.tmpf t2) active_file with -- db.py 412
            | .error _ => (.renameRaised, fs6, false)
            | .ok fs7 => (.ok, fs7, false)
          else
            (.compressFailed, (fs4.erase (.tmpf t1)).erase (.tmpf t2), false)

/-- `list_backups()` (db.py 420-432): the existing backup slots
`1 .. num-backups`, in order. -/
def list_backups (numBackups : Nat) (fs : FS) : List DbPath :=
  ((List.range' 1 numBackups).filter
    (fun i => (fs (filename_slot .basefile i)).isSome)).map (filename_slot .basefile)

inductive RollbackResult where
  | noBackup (missing : DbPath) -- the (None, 'Backup "..." does not exist', None) return
  | typeError                   -- _filename_slot(idx) called with one argument
  | ok (numRemaining : Nat) (firstBackup : DbPath) (changeLog : List JVal)
deriving DecidableEq, Repr

/-- `rollback()` (db.py 435-457).  `first_backup` is
`_filename_slot(db_file, 1)` where `db_file` is *already* the slotted
active path, so the probed name is the active file's name with a second
slot suffix appended, not the slot-1 backup name.  When that file
exists the store is re-`load`ed to collect the change log (`loadLog`
stands for `meta_get(load(), meta_changes_log_key, [])`; on an
already-migrated clean store `load` leaves the file system unchanged),
the file is renamed over the active path, and the shift loop runs for
`idx in range(2, num-backups + 1)` — whose body calls
`_filename_slot(idx)` with a single argument, raising `TypeError` as
soon as the range is non-empty. -/
def rollback (numBackups : Nat) (loadLog : List JVal) (fs : FS) :
    RollbackResult × FS :=
  let db_file := active_file
  let first_backup := filename_slot db_file 1
  match fs first_backup with
  | none => (.noBackup first_backup, fs)
  | some c =>
      let fs' : FS := fun q =>
        if q = db_file then some c else if q = first_backup then none else fs q
      if 2 ≤ numBackups then (.typeError, fs')
      else (.ok 0 first_backup loadLog, fs')

inductive LoadResult where
  | newDb (db : Store)   -- "brand new database" (db.py 76-79)
  | loaded (db : Store)
  | raised (err : String)
deriving DecidableEq, Repr

/-- `load(None)` (db.py 41-97) over the file-system state.  `parse`
stands for `read_json_obj(compressed_open(...))` on the active file's
content and `serialize` for `write_json`'s serialization; `writeErr`,
`compOk`, `t1`, `t2`, `numBackups` feed the nested `save` that runs
when migration dirtied the store.  When the active file is missing,
`mk_backup` on an existing uncompressed candidate moves its content
into the active slot whether or not the compressor succeeds
(db.py 328-333), and the legacy-location fallback merely copies into
the uncompressed path (db.py 66-73); if the active file is still
missing the function returns an empty store — leaving the dirty flag
exactly as it was (db.py 76-79: `set_dirty(False)` only runs on the
read path at line 90). -/
def load (parse : String → Except String Store) (serialize : Store → String)
    (writeErr compOk : Bool) (t1 t2 numBackups : Nat)
    (dirty : Bool) (fs : FS) : LoadResult × FS × Bool :=
  let db_file := active_file
  let fsA :=
    match fs db_file with
    | some _ => fs
    | none =>
        -- degraded recovery (db.py 50-73)
        let fs1 :=
          match fs .basefile with
          | some c => (fs.write db_file c).erase .basefile
          | none => fs
        match fs1 db_file with
        | some _ => fs1
        | none =>
            match fs1 .oldloc with
            | some c => fs1.write .basefile c
            | none => fs1
  match fsA db_file with
  | none => (.newDb [], fsA, dirty)
  | some content =>
      match parse content with
      | .error e => (.raised e, fsA, dirty)
      | .ok db =>
          -- set_dirty(False) (db.py 90), then _migrate, then save if dirty
          match migrate db false with
          | .error e => (.raised e, fsA, false)
          | .ok (db', d') =>
              if d' then
                let r := save (serialize db') writeErr compOk t1 t2 numBackups d' fsA
                (.loaded db', r.2.1, r.2.2)
              else (.loaded db', fsA, false)

/-- Consecutive saves of a dirty store (claim C3): before each save the
caller has mutated the store, so the dirty flag is true; each save uses
its own serialized content and fresh `mkstemp` names, with `write_json`
and the compressor succeeding. -/
def iterSaves (numBackups : Nat) : List (String × Nat × Nat) → FS → FS
  | [], fs => fs
  | (s, t1, t2) :: rest, fs =>
      iterSaves numBackups rest (save s false true t1 t2 numBackups true fs).2.1

/-- Precondition of a successful save step shared by the first save from
a full pre-existing backup chain and by every subsequent save: the
active file exists and does not hold the forbidden content `x` (the
oldest pre-existing backup, whose eviction claim C3 tracks), slots
`2..N-1` are occupied without `x`, nothing lives above slot `N` or among
the temp files.  The contents of slots 1 and `N` are unconstrained:
slot 1 is overwritten by the rename of the active file and slot `N`
only ever flows out of the chain. -/
structure PreChain (N : Nat) (x : String) (fs : FS) : Prop where
  act : ∃ c, fs active_file = some c ∧ c ≠ x
  mid : ∀ i, 2 ≤ i → i ≤ N - 1 → ∃ c, fs (filename_slot .basefile i) = some c ∧ c ≠ x
  high : ∀ i, N < i → fs (filename_slot .basefile i) = none
  tmps : ∀ t, fs (.tmpf t) = none

/-- The steady state after a successful save (claim C3, amended): the
new snapshot is active, slot 1 is empty, slots `2..N` are occupied,
nothing lives above `N` or among the temp files, and no slot holds the
forbidden content `x`. -/
structure ChainInv (N : Nat) (x : String) (fs : FS) : Prop where
  act : ∃ c, fs active_file = some c ∧ c ≠ x
  slot1 : fs (filename_slot .basefile 1) = none
  mid : ∀ i, 2 ≤ i → i ≤ N → ∃ c, fs (filename_slot .basefile i) = some c ∧ c ≠ x
  high : ∀ i, N < i → fs (filename_slot .basefile i) = none
  tmps : ∀ t, fs (.tmpf t) = none

/-! ## Dictionary lemmas -/

theorem dGet_dSet_self {α : Type} (l : List (String × α)) (k : String) (v : α) :
    dGet (dSet l k v) k = some v := by
  induction l with
  | nil => simp [dGet, dSet]
  | cons e rest ih =>
      obtain ⟨k', v'⟩ := e
      by_cases h : k' = k <;> simp [dGet, dSet, h, ih]

theorem dGet_dSet_ne {α : Type} (l : List (String × α)) (k k' : String) (v : α)
    (h : k' ≠ k) : dGet (dSet l k v) k' = dGet l k' := by
  have hne : k ≠ k' := Ne.symm h
  induction l with
  | nil => simp [dGet, dSet, hne]
  | cons e rest ih =>
      obtain ⟨k₀, v₀⟩ := e
      by_cases h0 : k₀ = k
      · subst h0
        simp [dGet, dSet, hne]
      · simp [dGet, dSet, h0, ih]

theorem dSet_of_get {α : Type} (l : List (String × α)) (k : String) (v : α)
    (h : dGet l k = some v) : dSet l k v = l := by
  induction l with
  | nil => simp [dGet] at h
  | cons e rest ih =>
      obtain ⟨k', v'⟩ := e
      by_cases h0 : k' = k
      · subst h0
        simp [dGet] at h
        simp [dSet, h]
      · simp [dGet, h0] at h
        simp [dSet, h0, ih h]

theorem dPop_of_get_none {α : Type} (l : List (String × α)) (k : String)
    (h : dGet l k = none) : dPop l k = l := by
  induction l with
  | nil => simp [dPop]
  | cons e rest ih =>
      obtain ⟨k', v'⟩ := e
      by_cases h0 : k' = k
      · simp [dGet, h0] at h
      · simp [dGet, h0] at h
        simp [dPop, h0, ih h]

theorem dGet_isSome_of_mem_keys {α : Type} (l : List (String × α)) (k : String)
    (h : k ∈ l.map Prod.fst) : (dGet l k).isSome := by
  induction l with
  | nil => simp at h
  | cons e rest ih =>
      obtain ⟨k', v'⟩ := e
      by_cases h0 : k' = k
      · simp [dGet, h0]
      · have hrest : k ∈ rest.map Prod.fst := by
          simp only [List.map_cons, List.mem_cons] at h
          rcases h with h1 | h1
          · exact absurd h1.symm h0
          · exact h1
        simpa [dGet, h0] using ih hrest

theorem keys_dSet_of_mem {α : Type} (l : List (String × α)) (k : String) (v : α)
    (h : (dGet l k).isSome) : (dSet l k v).map Prod.fst = l.map Prod.fst := by
  induction l with
  | nil => simp [dGet] at h
  | cons e rest ih =>
      obtain ⟨k', v'⟩ := e
      by_cases h0 : k' = k
      · simp [dSet, h0]
      · simp [dGet, h0] at h
        simp [dSet, h0, ih h]

theorem dGet_of_mem_nodup {α : Type} (l : List (String × α)) (k : String) (v : α)
    (hmem : (k, v) ∈ l) (hnd : (l.map Prod.fst).Nodup) : dGet l k = some v := by
  induction l with
  | nil => simp at hmem
  | cons e rest ih =>
      obtain ⟨k', v'⟩ := e
      simp only [List.map_cons, List.nodup_cons] at hnd
      rcases List.mem_cons.mp hmem with h | h
      · obtain ⟨h1, h2⟩ := Prod.mk.injEq .. ▸ h
        simp [dGet, h1.symm, h2]
      · have hk : k' ≠ k := by
          intro he
          exact hnd.1 (he ▸ (List.mem_map.mpr ⟨(k, v), h, rfl⟩))
        simp [dGet, hk, ih h hnd.2]

/-! ## Concrete inputs used by the claim theorems -/

/-- C1: a file system holding only the active snapshot. -/
def c1fs : FS := fun p => if p = active_file then some "old snapshot" else none

/-- C2: active snapshot plus a genuine slot-1 backup (`base.1.ext`). -/
def c2fsA : FS := fun p =>
  if p = active_file then some "active snapshot"
  else if p = filename_slot .basefile 1 then some "slot one backup" else none

/-- C2: active snapshot plus a file at the doubly-suffixed name
(`base.0.ext.1.ext`) that `rollback` actually probes. -/
def c2fsB : FS := fun p =>
  if p = active_file then some "active snapshot"
  else if p = filename_slot active_file 1 then some "stray file" else none

/-- C3: depth 2 with a full pre-existing chain: active plus backups in
slots 1 and 2. -/
def c3fs0 : FS := fun p =>
  if p = active_file then some "a0"
  else if p = filename_slot .basefile 1 then some "b1"
  else if p = filename_slot .basefile 2 then some "b2" else none

def c3save1 := save "n1" false true 1 2 2 true c3fs0
def c3save2 := save "n2" false true 3 4 2 true c3save1.2.1
def c3save3 := save "n3" false true 5 6 2 true c3save2.2.1

/-- C4: a version-4 store with one record whose metadata has no
update-history key. -/
def c4db : Store :=
  [(meta_key, [(meta_version_key, .num 4)]),
   ("a", [("title", .str "T"), (meta_key, .obj [(meta_added_key, .str "2020-05-01")])])]

/-- C5 witness input: a version-4 store whose record has an unsorted
update history with a duplicate. -/
def c5db : Store :=
  [(meta_key, [(meta_version_key, .num 4)]),
   ("a", [("title", .str "T"),
          (meta_key, .obj [(meta_update_history_key,
            .arr [.str "2021-03-01", .str "2021-01-01", .str "2021-01-01"])])])]

/-- C5 witness: the result of the first migration run on `c5db`. -/
def c5db' : Store :=
  [(meta_key, [(meta_version_key, .num 4)]),
   ("a", [("title", .str "T"),
          (meta_key, .obj [(meta_update_history_key,
            .arr [.str "2021-01-01", .str "2021-03-01"])])])]

/-- C6: a version-0 store (empty metadata record) with one record whose
per-record pass succeeds (it has an added timestamp and a one-entry
update history), so `_migrate` reaches the version-<2 index pass. -/
def c6db : Store :=
  [(meta_key, []),
   ("a", [("title", .str "T"),
          (meta_key, .obj [(meta_added_key, .str "2020-01-01"),
                           (meta_update_history_key, .arr [.str "2021-01-01"])])])]

/-- C6: a version-0 store holding only the reserved metadata record. -/
def c6emptyDb : Store := [(meta_key, [])]

/-- C7: a record whose update history has a single entry 7 days old and
whose last check was 4 days after that entry. -/
def c7rec : Rec :=
  [("title", .str "T"), ("status", .str "returning"),
   (meta_key, .obj [(meta_update_check_key, .num (4*DAY)),
                    (meta_update_history_key, .arr [.num 0])])]

/-- C7: a record with a two-entry history 14 days apart, last checked a
day after the second entry (the spec's §8 example on the model's time
axis). -/
def c7rec2 : Rec :=
  [("title", .str "T"), ("status", .str "returning"),
   (meta_key, .obj [(meta_update_check_key, .num (15*DAY)),
                    (meta_update_history_key, .arr [.num 0, .num (14*DAY)])])]

/-- C8: two episodes, status ended, not archived; the watched map holds
one real episode and one sentinel season marker. -/
def c8rec : Rec :=
  [("title", .str "T"), ("status", .str "ended"),
   ("episodes", .arr [.obj [("season", .num 1), ("episode", .num 1)],
                      .obj [("season", .num 1), ("episode", .num 2)]]),
   (meta_key, .obj [(meta_seen_key, .obj [("1:1", .str "t1"), ("S:1", .str "t2")])])]

/-- A watched-map key whose season component is the sentinel `"S"`
(keys have the shape `season:episode`). -/
def isSentinelKey (k : String) : Bool :=
  match k.data with
  | 'S' :: ':' :: _ => true
  | _ => false

/-- The watched-episode count as the specification words it (claim C8,
spec §3): the size of the watched-episode map excluding the sentinel
`"S"` season markers.  This definition follows the spec's words, for
comparison against the source's `series_state`, which takes the raw map
size. -/
def specWatchedCount (r : Rec) : Nat :=
  match meta_get r meta_seen_key (.obj []) with
  | .ok (.obj m) => (m.filter (fun kv => !(isSentinelKey kv.1))).length
  | _ => 0

/-- `series.get('status') in ('ended', 'canceled')` (db.py 700). -/
def isEndedStatus (r : Rec) : Prop :=
  (dGet r "status").getD .null = JVal.str "ended" ∨
    (dGet r "status").getD .null = JVal.str "canceled"

instance (r : Rec) : Decidable (isEndedStatus r) := by
  unfold isEndedStatus; infer_instance

/-- C9: the `read_json_obj` oracle — never consulted on the missing-file
path. -/
def c9parse : String → Except String Store := fun _ => .error "unused: no file is read"

/-- C9: the `write_json` serialization oracle. -/
def c9serialize : Store → String := fun _ => "serialized store"

def c9load := load c9parse c9serialize false true 1 2 3 true (fun _ => none)

/-- C9: the save invoked immediately after the load, with the dirty flag
and file system the load left behind and no intervening mutation. -/
def c9save := save (c9serialize []) false true 1 2 3 c9load.2.2 c9load.2.1

/-! ## Claim theorems: closed counterexamples and evaluations -/

/-- Claim C1 counterexample: during a save whose compression step fails,
the active file *is* touched — it was already renamed into backup slot 1
— so at the observable point where `save` returns after a compression
failure the active path is missing (the claim asserts it always holds
the old or the new snapshot).  Both temp files are indeed deleted, and
the old snapshot survives only as the slot-1 backup. -/
theorem c1_counterexample :
    (save "new snapshot" false false 1 2 3 true c1fs).1 = .compressFailed ∧
    (save "new snapshot" false false 1 2 3 true c1fs).2.1 active_file = none ∧
    (save "new snapshot" false false 1 2 3 true c1fs).2.1 (filename_slot .basefile 1)
      = some "old snapshot" ∧
    (save "new snapshot" false false 1 2 3 true c1fs).2.1 (.tmpf 1) = none ∧
    (save "new snapshot" false false 1 2 3 true c1fs).2.1 (.tmpf 2) = none := by
  decide

/-- Claim C2: `rollback` computes its "slot 1" name by applying the slot
suffix to the *active file's* name (`_filename_slot(db_file, 1)` with
`db_file` already slotted), so with a genuine slot-1 backup present it
still reports "no backup available" and moves nothing; and when a file
at the doubly-suffixed name does exist, the shift loop raises
`TypeError` (`_filename_slot(idx)` is called with one argument) as soon
as `num-backups` admits index 2. -/
theorem c2_rollback_wrong_slot_and_loop_raises :
    (rollback 2 [] c2fsA).1 = .noBackup (filename_slot active_file 1) ∧
    (rollback 2 [] c2fsA).2 (filename_slot .basefile 1) = some "slot one backup" ∧
    (rollback 2 [] c2fsA).2 active_file = some "active snapshot" ∧
    (rollback 2 [] c2fsB).1 = .typeError := by
  decide

/-- Claim C3 counterexample: with backup depth 2 and a full pre-existing
chain, three (= N+1) consecutive successful saves of a dirty store leave
exactly one backup slot occupied, not two — the rename-into-slot-1 runs
before rotation, which immediately shifts that file up and leaves slot 1
empty. -/
theorem c3_counterexample :
    c3save1.1 = .ok ∧ c3save2.1 = .ok ∧ c3save3.1 = .ok ∧
    (list_backups 2 c3save3.2.1).length = 1 ∧
    c3save3.2.1 (filename_slot .basefile 1) = none ∧
    c3save3.2.1 (filename_slot .basefile 2) = some "n2" := by
  decide

/-- Claim C4: the migration pipeline is *not* total over versions 0..4 —
on a well-formed version-4 store whose record has no update-history key,
the every-version history pass evaluates `len(meta_get(series,
meta_update_history_key))`, i.e. `len(None)`, and raises `TypeError`
(db.py 168-169). -/
theorem c4_migrate_raises_on_missing_history :
    migrate c4db false = .error "TypeError: object has no len()" := by
  decide

/-- Claim C6: the version-<2 index pass does *not* exclude the reserved
metadata record: `sorted(db.values(), ...)` iterates every store value.
On a version-0 store with one real record the sort compares the
metadata record's missing added-timestamp (`None`) against the record's
string timestamp and raises `TypeError`; and on a store holding only
the reserved record, that record itself is assigned `list_index` 1
(nested under a fresh `epm:meta` sub-dict inside the store metadata). -/
theorem c6_index_pass_includes_meta_record :
    migrate c6db false = .error "TypeError: unorderable types in sort" ∧
    migrate c6emptyDb false =
      .ok ([(meta_key,
             [(meta_key, .obj [(meta_list_index_key, .num 1)]),
              (meta_version_key, .num 4),
              (meta_next_list_index_key, .num 2)])], true) := by
  exact ⟨by decide, by decide⟩

/-- Claim C7: for a checked, non-archived, still-running record with a
single update-history entry, the code caps the elapsed-time interval at
`simple_age_cap = 2*WEEK` (db.py 754, 778), not at 2 days as the claim
(and the source's own comment at db.py 731) states: with the single
update 7 days old and the last check 4 days after it, `should_update`
at `now = 7*DAY` returns false although `now` exceeds the last check
plus 2 days.  The two-entry branch behaves as claimed: with a 14-day
mean gap and last check at day 15, the record becomes due exactly when
`now` passes day 29. -/
theorem c7_single_entry_cap_is_two_weeks :
    should_update c7rec (7*DAY) = .ok false ∧
    (4*DAY + 2*DAY : Int) < 7*DAY ∧
    should_update c7rec2 (29*DAY) = .ok false ∧
    should_update c7rec2 (29*DAY + 1) = .ok true := by
  decide

/-- Claim C8 counterexample: `series_state` counts the raw size of the
watched-episode map, sentinel `"S"` entries included.  A non-archived
ended record with 2 episodes, one real watched entry and one sentinel
marker is classified `COMPLETED`, although with the sentinel excluded
only 1 of 2 episodes is watched, so the claim's classification
(`COMPLETED` iff all episodes watched) demands `STARTED`. -/
theorem c8_counterexample :
    series_state c8rec = .ok COMPLETED ∧
    specWatchedCount c8rec = 1 ∧
    pyLen ((dGet c8rec "episodes").getD (.arr [])) = .ok 2 := by
  decide

/-- Claim C9 counterexample: `load` on a missing active file (no
recovery candidates) returns the empty store without writing, but it
leaves the process-wide dirty flag untouched — and the flag is
initialized `true` at module import (db.py 21) — so the save invoked
immediately after such a load, with no intervening mutation, does not
no-op: it creates and fills a temp file, then raises
`FileNotFoundError` renaming the missing active file, leaving the temp
file on disk. -/
theorem c9_counterexample :
    c9load.1 = .newDb [] ∧
    c9load.2.2 = true ∧
    c9save.1 = .renameRaised ∧
    c9save.2.1 (.tmpf 1) = some "serialized store" := by
  decide

/-- Claim C10: `meta_del(record, key)` is total only on records that
already contain the reserved metadata sub-record: on a record lacking
`epm:meta` it raises `KeyError` (the membership test consults
`obj.get(meta_key, {})` but the pop indexes `obj[meta_key]` directly,
db.py 477-480); on a record whose metadata dict exists but lacks the
key, it is a no-op that leaves the record and the dirty flag
unchanged. -/
theorem c10_meta_del_requires_meta_subrecord :
    (∀ (r : Rec) (k : String) (d : Bool), dGet r meta_key = none →
       meta_del r k d = .error "KeyError: epm:meta") ∧
    (∀ (r : Rec) (m : List (String × JVal)) (k : String) (d : Bool),
       dGet r meta_key = some (.obj m) → dGet m k = none →
       meta_del r k d = .ok (r, d)) := by
  constructor
  · intro r k d h
    simp [meta_del, h]
  · intro r m k d hm hk
    simp [meta_del, hm, dMem, hk, dPop_of_get_none m k hk, dSet_of_get r meta_key _ hm]

/-- Claim C10 witness: `meta_del` at concrete records — a `KeyError` on
a record without the metadata sub-record, and an unchanged record and
dirty flag when the sub-record exists but lacks the key. -/
theorem c10_witness :
    meta_del [("title", .str "t")] "rating" false = .error "KeyError: epm:meta" ∧
    meta_del [(meta_key, .obj [("added", .str "x")])] "rating" false
      = .ok ([(meta_key, .obj [("added", .str "x")])], false) :=
  ⟨c10_meta_del_requires_meta_subrecord.1 [("title", .str "t")] "rating" false (by decide),
   c10_meta_del_requires_meta_subrecord.2 [(meta_key, .obj [("added", .str "x")])]
     [("added", .str "x")] "rating" false (by decide) (by decide)⟩

/-! ## Amended claim theorems -/

/-- Claim C8 (amended): `series_state` classifies by the *raw* size of
the watched-episode map — sentinel `"S"` entries included — rather than
the sentinel-excluded count: with `ne` the episode count and `ns` the
raw watched-map size, a record is ABANDONED iff archived and `ns < ne`;
ARCHIVED iff archived and `ne ≤ ns`; COMPLETED iff not archived,
`ns ≠ 0`, `ns = ne` and the external status is ended/canceled; STARTED
iff not archived, `ns ≠ 0` and not (`ns = ne` and ended/canceled);
PLANNED iff not archived and `ns = 0`. -/
theorem c8_series_state_counts_sentinel_entries (r : Rec) (arch : Bool)
    (ne ns : Nat) (sv : JVal)
    (harch : meta_has r meta_archived_key = .ok arch)
    (hne : pyLen ((dGet r "episodes").getD (.arr [])) = .ok ne)
    (hsv : meta_get r meta_seen_key (.obj []) = .ok sv)
    (hns : pyLen sv = .ok ns) :
    (series_state r = .ok ABANDONED ↔ arch = true ∧ ns < ne) ∧
    (series_state r = .ok ARCHIVED ↔ arch = true ∧ ne ≤ ns) ∧
    (series_state r = .ok COMPLETED ↔
      arch = false ∧ ns ≠ 0 ∧ ns = ne ∧ isEndedStatus r) ∧
    (series_state r = .ok STARTED ↔
      arch = false ∧ ns ≠ 0 ∧ ¬ (ns = ne ∧ isEndedStatus r)) ∧
    (series_state r = .ok PLANNED ↔ arch = false ∧ ns = 0) := by
  have hAB : ABANDONED = 24 := by decide
  have hAR : ARCHIVED = 8 := by decide
  have hCO : COMPLETED = 4 := by decide
  have hST : STARTED = 2 := by decide
  have hPL : PLANNED = 1 := by decide
  have heval : series_state r = .ok (
      if arch then (if ns < ne then ABANDONED else ARCHIVED)
      else if ns ≠ 0 then
        (if ns = ne ∧ isEndedStatus r then COMPLETED else STARTED)
      else PLANNED) := by
    unfold series_state
    rw [harch, hne, hsv]
    simp only [bind, Except.bind]
    rw [hns]
    simp only [bind, Except.bind, pure, Except.pure]
    have h1 : (0 < (ne : Int) - (ns : Int)) = (ns < ne) := by
      simp only [eq_iff_iff]; omega
    have h2 : ((ne : Int) - (ns : Int) = 0) = (ns = ne) := by
      simp only [eq_iff_iff]; omega
    have h3 : ((dGet r "status").getD .null = JVal.str "ended" ∨
        (dGet r "status").getD .null = JVal.str "canceled") = isEndedStatus r := by
      simp only [isEndedStatus]
    simp only [h1, h2, h3]
    split_ifs <;> rfl
  rw [heval]
  simp only [Except.ok.injEq]
  by_cases hz : ns = 0 <;> by_cases hee : ns = ne <;> by_cases hlt : ns < ne <;>
    by_cases hend : isEndedStatus r <;> rcases arch with _ | _ <;>
    simp_all [hAB, hAR, hCO, hST, hPL] <;>
    first
      | omega
      | (rw [if_neg (by omega : ¬ ns < ne)]; omega)

/-- Claim C8 witness: the amended classification at the concrete record
with 2 episodes, one real watched entry plus one sentinel marker,
status ended, not archived — the raw count 2 equals the episode count,
so the record is COMPLETED. -/
theorem c8_witness : series_state c8rec = .ok COMPLETED :=
  ((c8_series_state_counts_sentinel_entries c8rec false 2 2
      (.obj [("1:1", .str "t1"), ("S:1", .str "t2")])
      (by decide) (by decide) (by decide) (by decide)).2.2.1).mpr
    ⟨rfl, by decide, rfl, by decide⟩

/-- Claim C1 (amended): when compression fails during a save of a dirty
store, both temp files are deleted and the previously active snapshot
is preserved — but as the slot-1 backup, not at the active path: the
rename of the active file into slot 1 (db.py 402) precedes compression
(db.py 405), so from that rename until the final install there is a
window with no file at the active path, and a save aborted by a
compression failure returns with the active path missing.  Every path
other than the active file, slot 1 and the two temp files is
untouched. -/
theorem c1_compress_failure_moves_active (fs : FS) (s c : String)
    (t1 t2 numBackups : Nat) (hact : fs active_file = some c) :
    (save s false false t1 t2 numBackups true fs).1 = .compressFailed ∧
    (save s false false t1 t2 numBackups true fs).2.1 active_file = none ∧
    (save s false false t1 t2 numBackups true fs).2.1 (filename_slot .basefile 1)
      = some c ∧
    (save s false false t1 t2 numBackups true fs).2.1 (.tmpf t1) = none ∧
    (save s false false t1 t2 numBackups true fs).2.1 (.tmpf t2) = none ∧
    (save s false false t1 t2 numBackups true fs).2.2 = false ∧
    (∀ p, p ≠ active_file → p ≠ filename_slot .basefile 1 →
      p ≠ .tmpf t1 → p ≠ .tmpf t2 →
      (save s false false t1 t2 numBackups true fs).2.1 p = fs p) := by
  have hact' : fs (DbPath.slotted .basefile 0) = some c := hact
  refine ⟨?_, ?_, ?_, ?_, ?_, ?_, ?_⟩
  · simp [save, FS.rename, FS.write, FS.erase, active_file, filename_slot, hact']
  · simp [save, FS.rename, FS.write, FS.erase, active_file, filename_slot, hact']
  · simp [save, FS.rename, FS.write, FS.erase, active_file, filename_slot, hact']
  · simp [save, FS.rename, FS.write, FS.erase, active_file, filename_slot, hact']
  · simp [save, FS.rename, FS.write, FS.erase, active_file, filename_slot, hact']
  · simp [save, FS.rename, FS.write, FS.erase, active_file, filename_slot, hact']
  · intro p hp1 hp2 hp3 hp4
    simp only [active_file, filename_slot] at hp1 hp2
    simp [save, FS.rename, FS.write, FS.erase, active_file, filename_slot, hact',
      hp1, hp2, hp3, hp4]

/-- Claim C1 witness: the amended behavior at the concrete one-file
system: the failed save deletes both temp files, leaves the active path
empty and the old snapshot in slot 1. -/
theorem c1_witness :
    (save "new" false false 4 5 3 true c1fs).2.1 active_file = none ∧
    (save "new" false false 4 5 3 true c1fs).2.1 (filename_slot .basefile 1)
      = some "old snapshot" :=
  ⟨(c1_compress_failure_moves_active c1fs "new" "old snapshot" 4 5 3 (by decide)).2.1,
   (c1_compress_failure_moves_active c1fs "new" "old snapshot" 4 5 3 (by decide)).2.2.1⟩

/-- Claim C9 (amended): when the active store file does not exist and no
recovery candidate exists, `load` returns an empty store without error
and without any disk write — but it leaves the process-wide dirty flag
exactly as it was, and the flag is initialized `true` at module import;
consequently a save invoked immediately after such a load, with no
intervening mutation, is *not* a no-op: it creates and fills a temp
file and then raises `FileNotFoundError` while renaming the missing
active file into slot 1, leaving that temp file on disk. -/
theorem c9_load_missing_keeps_dirty (parse : String → Except String Store)
    (serialize : Store → String) (we co co2 : Bool) (t1 t2 numBackups : Nat)
    (d : Bool) (fs : FS) (s : String)
    (hact : fs active_file = none) (hbase : fs .basefile = none)
    (hold : fs .oldloc = none) :
    load parse serialize we co t1 t2 numBackups d fs = (.newDb [], fs, d) ∧
    (save s false co2 t1 t2 numBackups true fs).1 = .renameRaised ∧
    (save s false co2 t1 t2 numBackups true fs).2.1 (.tmpf t1) = some s ∧
    (save s false co2 t1 t2 numBackups true fs).2.1 active_file = none := by
  have hact' : fs (DbPath.slotted .basefile 0) = none := hact
  refine ⟨?_, ?_, ?_, ?_⟩
  · simp only [load, active_file, filename_slot, hact', hbase, hold]
  · simp [save, FS.rename, FS.write, FS.erase, active_file, filename_slot, hact']
  · simp [save, FS.rename, FS.write, FS.erase, active_file, filename_slot, hact']
  · simp [save, FS.rename, FS.write, FS.erase, active_file, filename_slot, hact']

/-- Claim C9 witness: the amended behavior on the empty file system with
the import-time dirty flag: the load is a silent no-op returning the
empty store with the flag still true, and the follow-up save writes a
temp file and raises. -/
theorem c9_witness :
    load c9parse c9serialize false true 1 2 3 true (fun _ => none)
      = (.newDb [], (fun _ => none), true) ∧
    (save "x" false true 1 2 3 true (fun _ => none)).2.1 (.tmpf 1) = some "x" :=
  ⟨(c9_load_missing_keeps_dirty c9parse c9serialize false true true 1 2 3 true
      (fun _ => none) "x" rfl rfl rfl).1,
   (c9_load_missing_keeps_dirty c9parse c9serialize false true true 1 2 3 true
      (fun _ => none) "x" rfl rfl rfl).2.2.1⟩

/-! ## Rotation lemmas and the backup-depth argument (claim C3) -/

theorem slot_ne_slot {i j : Nat} (h : i ≠ j) :
    filename_slot .basefile i ≠ filename_slot .basefile j := by
  simp [filename_slot, h]

/-- Paths outside slots `1..k+1` are untouched by `rotateFrom k`. -/
theorem rotateFrom_frame (k : Nat) (fs : FS) (p : DbPath)
    (hp : ∀ j, 1 ≤ j → j ≤ k + 1 → p ≠ filename_slot .basefile j) :
    rotateFrom k fs p = fs p := by
  induction k generalizing fs with
  | zero => rfl
  | succ k ih =>
      show rotateFrom (k + 1) fs p = fs p
      unfold rotateFrom
      cases hfk : fs (filename_slot .basefile (k + 1)) with
      | none =>
          simp only [hfk]
          exact ih fs (fun j h1 h2 => hp j h1 (by omega))
      | some c =>
          simp only [hfk]
          rw [ih _ (fun j h1 h2 => hp j h1 (by omega))]
          rw [if_neg (hp (k + 2) (by omega) (by omega)),
              if_neg (hp (k + 1) (by omega) (by omega))]

/-- After `rotateFrom k` with `k ≥ 1`, slot 1 is always empty: its file,
if any, was shifted to slot 2 and nothing writes slot 1. -/
theorem rotateFrom_slot_one (k : Nat) (fs : FS) (hk : 1 ≤ k) :
    rotateFrom k fs (filename_slot .basefile 1) = none := by
  induction k generalizing fs with
  | zero => omega
  | succ k ih =>
      show rotateFrom (k + 1) fs _ = none
      unfold rotateFrom
      rcases Nat.eq_zero_or_pos k with hk0 | hk0
      · subst hk0
        cases hfk : fs (filename_slot .basefile 1) with
        | none => simp only [hfk]; exact hfk
        | some c =>
            simp only [hfk]
            have h0 : ∀ f : FS, rotateFrom 0 f = f := fun f => rfl
            rw [h0]
            simp only [show (0 : Nat) + 2 = 2 from rfl, show (0 : Nat) + 1 = 1 from rfl]
            simp [slot_ne_slot (show (1 : Nat) ≠ 2 by omega)]
      · cases hfk : fs (filename_slot .basefile (k + 1)) with
        | none => simp only [hfk]; exact ih fs hk0
        | some c => simp only [hfk]; exact ih _ hk0

/-- The top slot `k+1` after `rotateFrom k` (`k ≥ 1`): it receives slot
`k`'s file when that exists, and otherwise keeps its own. -/
theorem rotateFrom_top (k : Nat) (fs : FS) (hk : 1 ≤ k) :
    rotateFrom k fs (filename_slot .basefile (k + 1)) =
      (fs (filename_slot .basefile k)).or (fs (filename_slot .basefile (k + 1))) := by
  obtain ⟨m, rfl⟩ : ∃ m, k = m + 1 := ⟨k - 1, by omega⟩
  show rotateFrom (m + 1) fs _ = _
  unfold rotateFrom
  cases hfk : fs (filename_slot .basefile (m + 1)) with
  | none =>
      simp only [hfk]
      rw [rotateFrom_frame m fs _ (fun j h1 h2 => slot_ne_slot (by omega))]
      simp [Option.or]
  | some c =>
      simp only [hfk]
      rw [rotateFrom_frame m _ _ (fun j h1 h2 => slot_ne_slot (by omega))]
      rw [if_pos rfl]
      simp [Option.or]

/-- Interior slots `2 ≤ j ≤ k` after `rotateFrom k`: slot `j` was first
vacated (its own shift runs before slot `j-1`'s) and then receives slot
`j-1`'s file, so it ends exactly as `fs` had slot `j-1`. -/
theorem rotateFrom_mid (k : Nat) (fs : FS) (j : Nat) (h2 : 2 ≤ j) (hjk : j ≤ k) :
    rotateFrom k fs (filename_slot .basefile j) =
      fs (filename_slot .basefile (j - 1)) := by
  induction k generalizing fs with
  | zero => omega
  | succ k ih =>
      show rotateFrom (k + 1) fs _ = _
      unfold rotateFrom
      rcases Nat.lt_or_ge j (k + 1) with hj | hj
      · -- j ≤ k: the step at index k+1 does not affect slots j, j-1
        cases hfk : fs (filename_slot .basefile (k + 1)) with
        | none => simp only [hfk]; exact ih fs (by omega)
        | some c =>
            simp only [hfk]
            rw [ih _ (by omega)]
            rw [if_neg (slot_ne_slot (by omega)), if_neg (slot_ne_slot (by omega))]
      · -- j = k + 1: use the top-slot formula for rotateFrom k
        have hj' : j = k + 1 := by omega
        subst hj'
        have hk1 : 1 ≤ k := by omega
        cases hfk : fs (filename_slot .basefile (k + 1)) with
        | none =>
            simp only [hfk]
            rw [rotateFrom_top k fs hk1]
            simp only [hfk, Option.or_none]
            have he : k + 1 - 1 = k := by omega
            rw [he]
        | some c =>
            simp only [hfk]
            rw [rotateFrom_top k _ hk1]
            rw [if_neg (slot_ne_slot (by omega)), if_neg (slot_ne_slot (by omega)),
                if_neg (slot_ne_slot (by omega)), if_pos rfl]
            simp only [Option.or_none]
            have he : k + 1 - 1 = k := by omega
            rw [he]

/-- The file system just before rotation inside a successful save,
flattened to an if-chain (helper for the claim C3 argument): the first
temp file has been consumed by the compressor, the second holds the
compressed snapshot, the old active snapshot sits in slot 1, the active
path is empty. -/
def preRotateFS (s c0 : String) (t1 t2 : Nat) (fs : FS) : FS :=
  fun q =>
    if q = DbPath.tmpf t1 then none
    else if q = DbPath.tmpf t2 then some s
    else if q = filename_slot .basefile 1 then some c0
    else if q = active_file then none
    else fs q

/-- A successful save, characterized pointwise: outcome ok, dirty flag
cleared, and the resulting file system installs the new snapshot at the
active path over the rotated `preRotateFS` state. -/
theorem save_ok_points (s : String) (t1 t2 N : Nat) (fs : FS) (c0 : String)
    (hact : fs active_file = some c0) (ht : t1 ≠ t2) :
    save s false true t1 t2 N true fs =
      (.ok,
       fun q =>
         if q = active_file then some s
         else if q = DbPath.tmpf t2 then none
         else rotate_backups N (preRotateFS s c0 t1 t2 fs) q,
       false) := by
  have h1 : active_file ≠ DbPath.tmpf t1 := by simp [active_file, filename_slot]
  have hfs2act : ((fs.write (.tmpf t1) "").write (.tmpf t1) s) active_file = some c0 := by
    simp only [FS.write, if_neg h1]
    exact hact
  have hfs5 : FS.erase (FS.write (FS.write (fun q =>
        if q = filename_slot .basefile 1 then some c0
        else if q = active_file then none
        else ((fs.write (.tmpf t1) "").write (.tmpf t1) s) q) (.tmpf t2) "")
          (.tmpf t2) s) (.tmpf t1)
      = preRotateFS s c0 t1 t2 fs := by
    funext q
    simp only [FS.erase, FS.write, preRotateFS]
    by_cases hq1 : q = DbPath.tmpf t1
    · simp only [if_pos hq1]
    · simp only [if_neg hq1]
      by_cases hq2 : q = DbPath.tmpf t2
      · simp only [if_pos hq2]
      · simp only [if_neg hq2]
  have hrot : rotate_backups N (preRotateFS s c0 t1 t2 fs) (DbPath.tmpf t2) = some s := by
    rw [rotate_backups]
    rw [rotateFrom_frame _ _ _ (fun j hj1 hj2 => by simp [filename_slot])]
    simp only [preRotateFS]
    rw [if_neg (by intro h; exact ht (DbPath.tmpf.inj h).symm)]
    simp
  simp only [save, FS.rename, hfs2act]
  simp only [not_true_eq_false, Bool.false_eq_true, if_false, if_true]
  rw [hfs5, hrot]

theorem slot_ne_active {i : Nat} (h : i ≠ 0) :
    filename_slot .basefile i ≠ active_file := by
  simp [active_file, filename_slot, h]

theorem slot_ne_tmpf (i t : Nat) :
    filename_slot .basefile i ≠ DbPath.tmpf t := by
  simp [filename_slot]

theorem tmpf_ne_slot (t i : Nat) :
    DbPath.tmpf t ≠ filename_slot .basefile i := by
  simp [filename_slot]

theorem tmpf_ne_active (t : Nat) : DbPath.tmpf t ≠ active_file := by
  simp [active_file, filename_slot]

/-- A successful save step from the shared `PreChain` precondition:
outcome ok, dirty cleared, and the `ChainInv` steady state holds
afterwards. -/
theorem save_ok_chain (N : Nat) (x s : String) (t1 t2 : Nat) (fs : FS)
    (hN : 2 ≤ N) (ht : t1 ≠ t2) (hs : s ≠ x) (pre : PreChain N x fs) :
    (save s false true t1 t2 N true fs).1 = .ok ∧
    (save s false true t1 t2 N true fs).2.2 = false ∧
    ChainInv N x (save s false true t1 t2 N true fs).2.1 := by
  obtain ⟨c0, hc0, hc0x⟩ := pre.act
  have hres := save_ok_points s t1 t2 N fs c0 hc0 ht
  have hout : (save s false true t1 t2 N true fs).1 = .ok := by rw [hres]
  have hdirty : (save s false true t1 t2 N true fs).2.2 = false := by rw [hres]
  have h2 : ∀ q, (save s false true t1 t2 N true fs).2.1 q =
      (if q = active_file then some s
       else if q = DbPath.tmpf t2 then none
       else rotate_backups N (preRotateFS s c0 t1 t2 fs) q) := by
    intro q
    rw [hres]
  -- pointwise values of the pre-rotation state at the slots
  have hpre_slot : ∀ j, 1 ≤ j → preRotateFS s c0 t1 t2 fs (filename_slot .basefile j) =
      (if j = 1 then some c0 else fs (filename_slot .basefile j)) := by
    intro j hj
    by_cases hj1 : j = 1
    · subst hj1
      simp [preRotateFS, filename_slot]
    · simp only [preRotateFS]
      rw [if_neg (slot_ne_tmpf j t1), if_neg (slot_ne_tmpf j t2),
          if_neg (slot_ne_slot hj1), if_neg (slot_ne_active (by omega)), if_neg hj1]
  have hNm1 : 1 ≤ N - 1 := by omega
  refine ⟨hout, hdirty, ?_⟩
  refine ⟨⟨s, by rw [h2, if_pos rfl], hs⟩, ?_, ?_, ?_, ?_⟩
  · -- slot 1 is empty after rotation
    rw [h2, if_neg (slot_ne_active (by omega)), if_neg (slot_ne_tmpf 1 t2),
        rotate_backups]
    exact rotateFrom_slot_one (N - 1) _ hNm1
  · -- slots 2..N are occupied and avoid the forbidden content
    intro i hi2 hiN
    rw [h2, if_neg (slot_ne_active (by omega)), if_neg (slot_ne_tmpf i t2),
        rotate_backups]
    rcases Nat.lt_or_ge i N with hi | hi
    · -- interior slot: receives the pre-rotation slot i-1
      rw [rotateFrom_mid (N - 1) _ i hi2 (by omega)]
      rw [hpre_slot (i - 1) (by omega)]
      by_cases hi1 : i - 1 = 1
      · rw [if_pos hi1]
        exact ⟨c0, rfl, hc0x⟩
      · rw [if_neg hi1]
        exact pre.mid (i - 1) (by omega) (by omega)
    · -- top slot N: receives the pre-rotation slot N-1
      have hiN' : i = N := by omega
      subst hiN'
      have hislot : filename_slot .basefile i = filename_slot .basefile ((i - 1) + 1) := by
        congr 1
        omega
      rw [hislot, rotateFrom_top (i - 1) _ hNm1]
      rw [hpre_slot (i - 1) (by omega)]
      by_cases hi1 : i - 1 = 1
      · rw [if_pos hi1]
        exact ⟨c0, rfl, hc0x⟩
      · rw [if_neg hi1]
        obtain ⟨c, hc, hcx⟩ := pre.mid (i - 1) (by omega) (by omega)
        rw [hc]
        exact ⟨c, rfl, hcx⟩
  · -- nothing above slot N
    intro i hi
    rw [h2, if_neg (slot_ne_active (by omega)), if_neg (slot_ne_tmpf i t2),
        rotate_backups]
    rw [rotateFrom_frame _ _ _ (fun j hj1 hj2 => slot_ne_slot (by omega))]
    rw [hpre_slot i (by omega), if_neg (by omega)]
    exact pre.high i hi
  · -- no temp files remain
    intro t
    rw [h2, if_neg (tmpf_ne_active t)]
    by_cases htt : DbPath.tmpf t = DbPath.tmpf t2
    · rw [if_pos htt]
    · rw [if_neg htt, rotate_backups]
      rw [rotateFrom_frame _ _ _ (fun j hj1 hj2 => tmpf_ne_slot t j)]
      simp only [preRotateFS]
      by_cases ht1 : DbPath.tmpf t = DbPath.tmpf t1
      · rw [if_pos ht1]
      · rw [if_neg ht1, if_neg htt, if_neg (tmpf_ne_slot t 1),
            if_neg (tmpf_ne_active t)]
        exact pre.tmps t

theorem chainInv_preChain (N : Nat) (x : String) (fs : FS)
    (inv : ChainInv N x fs) : PreChain N x fs :=
  ⟨inv.act, fun i h2 hi => inv.mid i h2 (by omega), inv.high, inv.tmps⟩

/-- The steady state is preserved by any further run of successful
saves with fresh temp names and contents avoiding `x`. -/
theorem iterSaves_chain (N : Nat) (x : String) (steps : List (String × Nat × Nat))
    (fs : FS) (hN : 2 ≤ N)
    (hsteps : ∀ p ∈ steps, p.1 ≠ x ∧ p.2.1 ≠ p.2.2)
    (inv : ChainInv N x fs) : ChainInv N x (iterSaves N steps fs) := by
  induction steps generalizing fs with
  | nil => exact inv
  | cons p rest ih =>
      obtain ⟨s, t1, t2⟩ := p
      have hp := hsteps (s, t1, t2) (List.mem_cons_self ..)
      have step := save_ok_chain N x s t1 t2 fs hN hp.2 hp.1
        (chainInv_preChain N x fs inv)
      exact ih _ (fun q hq => hsteps q (List.mem_cons_of_mem _ hq)) step.2.2

/-- In the steady state exactly `N - 1` backups are listed: slot 1 is
empty and slots `2..N` are occupied. -/
theorem list_backups_length_of_chain (N : Nat) (x : String) (fs : FS) (hN : 2 ≤ N)
    (inv : ChainInv N x fs) : (list_backups N fs).length = N - 1 := by
  unfold list_backups
  rw [List.length_map]
  obtain ⟨m, rfl⟩ : ∃ m, N = m + 1 := ⟨N - 1, by omega⟩
  rw [List.range'_succ]
  rw [List.filter_cons]
  simp only [inv.slot1, Option.isSome_none, Bool.false_eq_true, if_false]
  rw [List.filter_eq_self.mpr]
  · rw [List.length_range']
    omega
  · intro i hi
    have hmem := List.mem_range'_1.mp hi
    obtain ⟨c, hc, _⟩ := inv.mid i hmem.1 (by omega)
    simp [hc]

/-- Claim C3 (amended): for every backup depth `N ≥ 2`, after `N + 1`
consecutive successful saves of a dirty store starting from a full
backup chain (active snapshot plus backups in slots `1..N`, slot `N`
holding the oldest pre-existing backup `x`), exactly `N - 1` backup
slots exist — slots `2..N`, with slot 1 left empty because the active
file is renamed into slot 1 before rotation, which immediately shifts
it to slot 2 — and no slot holds the oldest pre-existing backup
content: it has been evicted. -/
theorem c3_backup_depth_after_saves (N : Nat) (x : String) (fs0 : FS)
    (steps : List (String × Nat × Nat)) (hN : 2 ≤ N)
    (hlen : steps.length = N + 1)
    (hsteps : ∀ p ∈ steps, p.1 ≠ x ∧ p.2.1 ≠ p.2.2)
    (hact : ∃ c, fs0 active_file = some c ∧ c ≠ x)
    (hmid : ∀ i, 2 ≤ i → i ≤ N - 1 →
      ∃ c, fs0 (filename_slot .basefile i) = some c ∧ c ≠ x)
    (_hslotN : fs0 (filename_slot .basefile N) = some x)
    (hhigh : ∀ i, N < i → fs0 (filename_slot .basefile i) = none)
    (htmps : ∀ t, fs0 (.tmpf t) = none) :
    (list_backups N (iterSaves N steps fs0)).length = N - 1 ∧
    iterSaves N steps fs0 (filename_slot .basefile 1) = none ∧
    (∀ i, 2 ≤ i → i ≤ N →
      (iterSaves N steps fs0 (filename_slot .basefile i)).isSome) ∧
    (∀ i, iterSaves N steps fs0 (filename_slot .basefile i) ≠ some x) := by
  rcases steps with _ | ⟨⟨s, t1, t2⟩, rest⟩
  · simp at hlen
  · have hp := hsteps (s, t1, t2) (List.mem_cons_self ..)
    have pre : PreChain N x fs0 := ⟨hact, hmid, hhigh, htmps⟩
    have step := save_ok_chain N x s t1 t2 fs0 hN hp.2 hp.1 pre
    have inv : ChainInv N x (iterSaves N ((s, t1, t2) :: rest) fs0) := by
      show ChainInv N x (iterSaves N rest _)
      exact iterSaves_chain N x rest _ hN
        (fun q hq => hsteps q (List.mem_cons_of_mem _ hq)) step.2.2
    refine ⟨list_backups_length_of_chain N x _ hN inv, inv.slot1, ?_, ?_⟩
    · intro i h2 hiN
      obtain ⟨c, hc, _⟩ := inv.mid i h2 hiN
      simp [hc]
    · intro i
      by_cases h0 : i = 0
      · subst h0
        obtain ⟨c, hc, hcx⟩ := inv.act
        rw [show filename_slot .basefile 0 = active_file from rfl, hc]
        simp [hcx]
      · by_cases h1 : i = 1
        · subst h1
          rw [inv.slot1]
          simp
        · rcases Nat.lt_or_ge N i with hhi | hle
          · rw [inv.high i hhi]
            simp
          · obtain ⟨c, hc, hcx⟩ := inv.mid i (by omega) hle
            rw [hc]
            simp [hcx]

/-- Claim C3 witness: the amended statement at depth 2, the full chain
`c3fs0` and three concrete saves — one backup slot remains and slot 1
is empty. -/
theorem c3_witness :
    (list_backups 2 (iterSaves 2 [("n1", 1, 2), ("n2", 3, 4), ("n3", 5, 6)] c3fs0)).length
      = 1 ∧
    iterSaves 2 [("n1", 1, 2), ("n2", 3, 4), ("n3", 5, 6)] c3fs0
      (filename_slot .basefile 1) = none := by
  have h := c3_backup_depth_after_saves 2 "b2" c3fs0
    [("n1", 1, 2), ("n2", 3, 4), ("n3", 5, 6)] (by omega) (by decide) (by decide)
    ⟨"a0", by decide, by decide⟩
    (fun i h2 hi => absurd (h2.trans hi) (by decide))
    (by decide)
    (by
      intro i hi
      simp only [c3fs0, active_file, filename_slot]
      rw [if_neg (by simp; omega), if_neg (by simp; omega), if_neg (by simp; omega)])
    (by
      intro t
      simp [c3fs0, active_file, filename_slot])
  exact ⟨h.1, h.2.1⟩

/-! ## Migration idempotence (claim C5) -/

theorem exceptBind_ok {α β : Type} {x : Except String α} {f : α → Except String β} {b : β}
    (h : x.bind f = .ok b) : ∃ a, x = .ok a ∧ f a = .ok b := by
  cases x with
  | ok a => exact ⟨a, rfl, h⟩
  | error e => simp [Except.bind] at h

theorem dropLast_concat_getLast {α : Type} (l : List α) (x : α)
    (h : l.getLast? = some x) : l.dropLast ++ [x] = l :=
  List.dropLast_append_getLast? x h

/-- The result of the duplicate-removal loop is a sublist of the list it
started from (only deletions happen). -/
theorem dedupLoop_sublist :
    ∀ (b a : List JVal) (m : Nat), List.Sublist (dedupLoop a b m).1 (a ++ b) := by
  intro b
  induction b with
  | nil =>
      intro a m
      simp [dedupLoop]
  | cons x rest ih =>
      intro a m
      unfold dedupLoop
      simp only [List.length_cons]
      by_cases hlen : a.length + (rest.length + 1) < 2
      · rw [if_pos hlen]
      · rw [if_neg hlen]
        by_cases hdel : 0 < a.length ∧ a.getLast? = some x
        · rw [if_pos hdel]
          have hid : a.dropLast ++ [x] = a := dropLast_concat_getLast a x hdel.2
          rw [hid]
          exact (ih a (m + 1)).trans ((List.sublist_cons_self x rest).append_left a)
        · rw [if_neg hdel]
          have h1 := ih (a ++ [x]) m
          simpa using h1

/-- The duplicate-removal loop never leaves two equal adjacent entries:
the processed part stays free of adjacent duplicates. -/
theorem dedupLoop_chain :
    ∀ (b a : List JVal) (m : Nat), List.Chain' (· ≠ ·) a →
      List.Chain' (· ≠ ·) (dedupLoop a b m).1 := by
  intro b
  induction b with
  | nil =>
      intro a m ha
      simpa [dedupLoop] using ha
  | cons x rest ih =>
      intro a m ha
      unfold dedupLoop
      simp only [List.length_cons]
      by_cases hlen : a.length + (rest.length + 1) < 2
      · have ha0 : a = [] := List.length_eq_zero.mp (by omega)
        have hr0 : rest = [] := List.length_eq_zero.mp (by omega)
        rw [if_pos hlen, ha0, hr0]
        simp
      · rw [if_neg hlen]
        by_cases hdel : 0 < a.length ∧ a.getLast? = some x
        · rw [if_pos hdel]
          have hid : a.dropLast ++ [x] = a := dropLast_concat_getLast a x hdel.2
          refine ih _ (m + 1) ?_
          rw [hid]
          exact ha
        · rw [if_neg hdel]
          refine ih _ m ?_
          rw [List.chain'_append]
          refine ⟨ha, List.chain'_singleton x, ?_⟩
          intro y hy z hz
          simp only [List.head?_cons, Option.mem_def, Option.some.injEq] at hz
          subst hz
          intro hyx
          subst hyx
          rcases a with _ | _
          · simp at hy
          · exact hdel ⟨by simp, hy⟩

/-- On a list with no adjacent duplicates the loop makes no change and
counts nothing. -/
theorem dedupLoop_noop :
    ∀ (b a : List JVal) (m : Nat), List.Chain' (· ≠ ·) (a ++ b) →
      dedupLoop a b m = (a ++ b, m) := by
  intro b
  induction b with
  | nil =>
      intro a m _
      simp [dedupLoop]
  | cons x rest ih =>
      intro a m hch
      unfold dedupLoop
      simp only [List.length_cons]
      by_cases hlen : a.length + (rest.length + 1) < 2
      · rw [if_pos hlen]
      · rw [if_neg hlen]
        have hnd : ¬ (0 < a.length ∧ a.getLast? = some x) := by
          rintro ⟨hpos, hlast⟩
          rw [List.chain'_append] at hch
          exact hch.2.2 x hlast x (by simp) rfl
        rw [if_neg hnd]
        have := ih (a ++ [x]) m (by simpa using hch)
        simpa using this

theorem asStrList_map_str (ss : List String) : asStrList (ss.map JVal.str) = some ss := by
  induction ss with
  | nil => rfl
  | cons s rest ih => simp [asStrList, ih]

theorem asStrList_eq_map {xs : List JVal} {ss : List String}
    (h : asStrList xs = some ss) : xs = ss.map JVal.str := by
  induction xs generalizing ss with
  | nil =>
      simp [asStrList] at h
      simp [← h]
  | cons x rest ih =>
      cases x with
      | str s =>
          simp only [asStrList, Option.map_eq_some'] at h
          obtain ⟨ss', hss', hcons⟩ := h
          subst hcons
          simp [ih hss']
      | null => simp [asStrList] at h
      | boolean b => simp [asStrList] at h
      | num n => simp [asStrList] at h
      | arr l => simp [asStrList] at h
      | obj l => simp [asStrList] at h

/-- A sorted, duplicate-free string history is a fixed point of the
in-place sort. -/
theorem pySortJ_self (xs : List JVal) (ss : List String)
    (hxs : asStrList xs = some ss) (hsorted : ss.Sorted strLEr) :
    pySortJ xs = .ok xs := by
  unfold pySortJ
  by_cases hlen : xs.length ≤ 1
  · rw [if_pos hlen]
  · rw [if_neg hlen, hxs]
    simp only [hsorted.insertionSort_eq]
    rw [← asStrList_eq_map hxs]

/-- Output of the in-place sort for a list long enough to be sorted. -/
theorem pySortJ_of_long {xs sorted : List JVal} (hlen : ¬ xs.length ≤ 1)
    (h : pySortJ xs = .ok sorted) :
    ∃ ss, asStrList xs = some ss ∧ sorted = (ss.insertionSort strLEr).map JVal.str := by
  unfold pySortJ at h
  rw [if_neg hlen] at h
  cases hss : asStrList xs with
  | none => rw [hss] at h; simp at h
  | some ss =>
      rw [hss] at h
      simp only [Except.ok.injEq] at h
      exact ⟨ss, rfl, h.symm⟩

/-- The update-history value of a record is a fixed point of the
every-version history pass: `len` succeeds, and a list long enough to be
sorted is an array that the sort and the duplicate removal leave
unchanged. -/
def HistValOK (h : JVal) : Prop :=
  ∃ n, pyLen h = .ok n ∧
    (2 ≤ n → ∃ xs, h = .arr xs ∧ pySortJ xs = .ok xs ∧ dedupLoop [] xs 0 = (xs, 0))

/-- The record reads an update-history value that the history pass
leaves unchanged. -/
def RecHistOK (r : Rec) : Prop :=
  ∃ h, meta_get r meta_update_history_key = .ok h ∧ HistValOK h

/-- Read a metadata key when the metadata dict and the binding are
known. -/
theorem meta_get_of_entry (r : Rec) (m : List (String × JVal)) (k : String) (v dflt : JVal)
    (hm : dGet r meta_key = some (.obj m)) (hk : dGet m k = some v) :
    meta_get r k dflt = .ok v := by
  simp [meta_get, hm, hk]

/-- A record satisfying `RecHistOK` stores its history inside a present
metadata dict (a missing or null history would make `len` raise). -/
theorem recHistOK_meta (r : Rec) (hOK : RecHistOK r) :
    ∃ m h, dGet r meta_key = some (.obj m) ∧
      dGet m meta_update_history_key = some h ∧ HistValOK h := by
  obtain ⟨h, hget, hval⟩ := hOK
  obtain ⟨n, hn, hlong⟩ := hval
  unfold meta_get at hget
  cases hm : dGet r meta_key with
  | none =>
      rw [hm] at hget
      simp only [Except.ok.injEq] at hget
      subst hget
      simp [pyLen] at hn
  | some mv =>
      cases mv with
      | obj m =>
          rw [hm] at hget
          simp only [Except.ok.injEq] at hget
          cases hk : dGet m meta_update_history_key with
          | none =>
              rw [hk] at hget
              simp only [Option.getD_none] at hget
              subst hget
              simp [pyLen] at hn
          | some v =>
              rw [hk] at hget
              simp only [Option.getD_some] at hget
              subst hget
              exact ⟨m, v, rfl, hk, ⟨n, hn, hlong⟩⟩
      | null => rw [hm] at hget; simp at hget
      | boolean b => rw [hm] at hget; simp at hget
      | num nn => rw [hm] at hget; simp at hget
      | str st => rw [hm] at hget; simp at hget
      | arr l => rw [hm] at hget; simp at hget

theorem recWithHistory_self (r : Rec) (m : List (String × JVal)) (v : JVal)
    (hm : dGet r meta_key = some (.obj m))
    (hk : dGet m meta_update_history_key = some v) :
    recWithHistory r v = r := by
  simp only [recWithHistory, hm]
  rw [dSet_of_get m _ v hk, dSet_of_get r meta_key _ hm]

/-- A metadata read returning a value other than the default pins down
the metadata dict and the binding. -/
theorem meta_get_entry_of_ne_dflt (r : Rec) (k : String) (v dflt : JVal)
    (h : meta_get r k dflt = .ok v) (hne : v ≠ dflt) :
    ∃ m, dGet r meta_key = some (.obj m) ∧ dGet m k = some v := by
  unfold meta_get at h
  cases hm : dGet r meta_key with
  | none =>
      rw [hm] at h
      simp only [Except.ok.injEq] at h
      exact absurd h.symm hne
  | some mv =>
      cases mv with
      | obj m =>
          rw [hm] at h
          simp only [Except.ok.injEq] at h
          cases hk : dGet m k with
          | none =>
              rw [hk] at h
              simp only [Option.getD_none] at h
              exact absurd h.symm hne
          | some w =>
              rw [hk] at h
              simp only [Option.getD_some] at h
              exact ⟨m, rfl, h ▸ hk⟩
      | null => rw [hm] at h; simp at h
      | boolean b => rw [hm] at h; simp at h
      | num nn => rw [hm] at h; simp at h
      | str st => rw [hm] at h; simp at h
      | arr l => rw [hm] at h; simp at h

/-- A record whose history value is a fixed point passes the
every-version history pass unchanged, counting nothing. -/
theorem histPass_self (r : Rec) (hOK : RecHistOK r) : historyPass r = .ok (r, 0) := by
  obtain ⟨m, h, hm, hk, hval⟩ := recHistOK_meta r hOK
  obtain ⟨n, hn, hlong⟩ := hval
  unfold historyPass
  rw [meta_get_of_entry r m _ h .null hm hk]
  simp only [bind, Except.bind]
  simp only [hn]
  by_cases h2 : 2 ≤ n
  · obtain ⟨xs, hxs, hsort, hded⟩ := hlong h2
    subst hxs
    rw [if_pos h2]
    simp only [hsort, bind, Except.bind, hded]
    rw [recWithHistory_self r m _ hm hk]
  · rw [if_neg h2]

/-- The every-version history pass establishes the fixed-point property
on its output record. -/
theorem histPass_post (r r' : Rec) (k : Nat)
    (h : historyPass r = .ok (r', k)) : RecHistOK r' := by
  unfold historyPass at h
  obtain ⟨hv, hget, h⟩ := exceptBind_ok h
  obtain ⟨n, hlen, h⟩ := exceptBind_ok h
  by_cases h2 : 2 ≤ n
  · rw [if_pos h2] at h
    cases hv with
    | arr xs =>
        obtain ⟨sorted, hsort, h⟩ := exceptBind_ok h
        simp only [Except.ok.injEq, Prod.mk.injEq] at h
        obtain ⟨hr', hkmods⟩ := h
        have hnxs : n = xs.length := by
          simp only [pyLen, Except.ok.injEq] at hlen
          exact hlen.symm
        have hxslong : ¬ xs.length ≤ 1 := by omega
        obtain ⟨ss, hss, hsorted_eq⟩ := pySortJ_of_long hxslong hsort
        subst hsorted_eq
        -- the dedup output and its properties
        have hfinsub : List.Sublist
            (dedupLoop [] ((ss.insertionSort strLEr).map JVal.str) 0).1
            ((ss.insertionSort strLEr).map JVal.str) := by
          simpa using dedupLoop_sublist ((ss.insertionSort strLEr).map JVal.str) [] 0
        have hfinchain : List.Chain' (· ≠ ·)
            (dedupLoop [] ((ss.insertionSort strLEr).map JVal.str) 0).1 :=
          dedupLoop_chain _ [] 0 (by simp)
        obtain ⟨ss', hss'sub, hfineq⟩ := List.sublist_map_iff.mp hfinsub
        have hss'sorted : ss'.Sorted strLEr :=
          (List.sorted_insertionSort _ ss).sublist hss'sub
        -- locate the history in the metadata dict
        obtain ⟨m, hm, hkm⟩ := meta_get_entry_of_ne_dflt r _ _ _ hget (by
          intro hcontra
          cases hcontra)
        subst hr'
        have hm' : dGet (recWithHistory r
              (.arr (dedupLoop [] ((ss.insertionSort strLEr).map JVal.str) 0).1)) meta_key
            = some (.obj (dSet m meta_update_history_key
              (.arr (dedupLoop [] ((ss.insertionSort strLEr).map JVal.str) 0).1))) := by
          simp only [recWithHistory, hm]
          exact dGet_dSet_self r meta_key _
        refine ⟨.arr (dedupLoop [] ((ss.insertionSort strLEr).map JVal.str) 0).1, ?_, ?_⟩
        · exact meta_get_of_entry _ _ _ _ .null hm' (dGet_dSet_self m _ _)
        · refine ⟨(dedupLoop [] ((ss.insertionSort strLEr).map JVal.str) 0).1.length,
            by simp [pyLen], ?_⟩
          intro h2'
          refine ⟨(dedupLoop [] ((ss.insertionSort strLEr).map JVal.str) 0).1, rfl, ?_, ?_⟩
          · refine pySortJ_self _ ss' ?_ hss'sorted
            rw [hfineq]
            exact asStrList_map_str ss'
          · have hnn := dedupLoop_noop
              (dedupLoop [] ((ss.insertionSort strLEr).map JVal.str) 0).1 [] 0
              (by simpa using hfinchain)
            simpa using hnn
    | null => simp at h
    | boolean b => simp at h
    | num nn => simp at h
    | str st => simp at h
    | obj l => simp at h
  · rw [if_neg h2] at h
    simp only [Except.ok.injEq, Prod.mk.injEq] at h
    obtain ⟨hr', hkz⟩ := h
    subst hr'
    exact ⟨hv, hget, ⟨n, hlen, fun hc => absurd hc h2⟩⟩

/-- At version 4 every gated branch is skipped and the record passes
through unchanged when its history is a fixed point. -/
theorem migrateRecord_four (r : Rec) (c : MigCounts) (d : Bool) (hr : RecHistOK r) :
    migrateRecord 4 r c d = .ok (r, c, d) := by
  have h1 : ¬ ((4 : Int) < 1) := by norm_num
  have h3 : ¬ ((4 : Int) < 3) := by norm_num
  have h4 : ¬ ((4 : Int) < 4) := by norm_num
  simp only [migrateRecord, h1, h3, h4, false_and, if_false, bind, Except.bind,
    pure, Except.pure, histPass_self r hr]
  simp

/-- At version 4 the per-record loop leaves the whole store unchanged. -/
theorem migrateAll_four (ids : List String) (db : Store) (c : MigCounts) (d : Bool)
    (hids : ∀ id ∈ ids, ∃ r, dGet db id = some r ∧ RecHistOK r) :
    migrateAll 4 ids db c d = .ok (db, c, d) := by
  induction ids with
  | nil => rfl
  | cons id rest ih =>
      obtain ⟨r, hr, hrOK⟩ := hids id (List.mem_cons_self ..)
      unfold migrateAll
      rw [hr]
      simp only [Option.getD_some]
      rw [migrateRecord_four r c d hrOK]
      simp only [bind, Except.bind]
      rw [dSet_of_get db id r hr]
      exact ih fun id' h' => hids id' (List.mem_cons_of_mem _ h')

/-- A store in the migrated state passes `_migrate` untouched, with the
dirty flag exactly as it came in. -/
theorem migrate_of_migrated (db : Store) (d : Bool)
    (hmeta : dMem db meta_key = true)
    (hver : storeVersion db = .ok 4)
    (hrecs : ∀ id ∈ all_ids db, ∃ r, dGet db id = some r ∧ RecHistOK r) :
    migrate db d = .ok (db, d) := by
  have h2 : ¬ ((4 : Int) < 2) := by norm_num
  have h44 : ¬ ((4 : Int) ≠ DB_VERSION) := by norm_num [DB_VERSION]
  simp only [migrate, hmeta, if_true, bind, Except.bind]
  rw [hver]
  simp only []
  rw [migrateAll_four (all_ids db) db {} d hrecs]
  simp only [h2, if_false, h44, pure, Except.pure]
  simp [MigCounts.mk.injEq]

theorem mem_keys_of_dGet_isSome {α : Type} (l : List (String × α)) (k : String)
    (h : (dGet l k).isSome) : k ∈ l.map Prod.fst := by
  induction l with
  | nil => simp [dGet] at h
  | cons e rest ih =>
      obtain ⟨k', v'⟩ := e
      by_cases h0 : k' = k
      · simp [h0]
      · simp only [dGet, h0, if_false] at h
        simp only [List.map_cons, List.mem_cons]
        exact Or.inr (ih h)

theorem dSet_of_get_none {α : Type} (l : List (String × α)) (k : String) (v : α)
    (h : dGet l k = none) : dSet l k v = l ++ [(k, v)] := by
  induction l with
  | nil => simp [dSet]
  | cons e rest ih =>
      obtain ⟨k', v'⟩ := e
      by_cases h0 : k' = k
      · simp [dGet, h0] at h
      · simp only [dGet, h0, if_false] at h
        simp [dSet, h0, ih h]

/-- A record whose history is behind a present metadata dict keeps the
fixed-point property when another metadata key is assigned. -/
theorem meta_set_val_preserves (r r' : Rec) (k0 : String) (v : JVal)
    (hk0 : k0 ≠ meta_update_history_key)
    (h : meta_set_val r k0 v = .ok r') (hOK : RecHistOK r) : RecHistOK r' := by
  obtain ⟨m, hv, hm, hkm, hval⟩ := recHistOK_meta r hOK
  simp only [meta_set_val, hm, Except.ok.injEq] at h
  subst h
  refine ⟨hv, ?_, hval⟩
  refine meta_get_of_entry _ (dSet m k0 v) _ _ .null (dGet_dSet_self r meta_key _) ?_
  rw [dGet_dSet_ne m k0 _ v (Ne.symm hk0)]
  exact hkm

theorem mapExcept_snd {α β : Type} (f : α → Except String (β × α)) :
    ∀ (l : List α) (l' : List (β × α)),
      (∀ a b, f a = .ok b → b.2 = a) →
      mapExcept f l = .ok l' → l'.map Prod.snd = l := by
  intro l
  induction l with
  | nil =>
      intro l' _ h
      simp only [mapExcept, Except.ok.injEq] at h
      simp [← h]
  | cons a rest ih =>
      intro l' hf h
      unfold mapExcept at h
      obtain ⟨b, hb, h⟩ := exceptBind_ok h
      obtain ⟨bs, hbs, h⟩ := exceptBind_ok h
      simp only [pure, Except.pure, Except.ok.injEq] at h
      subst h
      simp [hf a b hb, ih bs hf hbs]

theorem mapOption_snd {α α' β : Type} (f : (α × β) → Option (α' × β)) :
    ∀ (l : List (α × β)) (l' : List (α' × β)),
      (∀ a b, f a = some b → b.2 = a.2) →
      mapOption f l = some l' → l'.map Prod.snd = l.map Prod.snd := by
  intro l
  induction l with
  | nil =>
      intro l' _ h
      simp only [mapOption, Option.some.injEq] at h
      simp [← h]
  | cons a rest ih =>
      intro l' hf h
      unfold mapOption at h
      cases hfa : f a with
      | none => rw [hfa] at h; simp at h
      | some b =>
          rw [hfa] at h
          cases hrest : mapOption f rest with
          | none => rw [hrest] at h; simp at h
          | some bs =>
              rw [hrest] at h
              simp only [Option.some.injEq] at h
              subst h
              simp [hf a b hfa, ih bs hf hrest]

/-- The decorated sort of the version-<2 pass returns a permutation of
the store's entries. -/
theorem sortByAdded_perm (db : Store) (l : List (String × Rec))
    (h : sortByAdded db = .ok l) : l.Perm db := by
  unfold sortByAdded at h
  obtain ⟨keyed, hkeyed, h⟩ := exceptBind_ok h
  have hsnd : keyed.map Prod.snd = db := by
    refine mapExcept_snd _ db keyed ?_ hkeyed
    intro a b hb
    obtain ⟨k, hk, hb⟩ := exceptBind_ok hb
    simp only [pure, Except.pure, Except.ok.injEq] at hb
    subst hb
    rfl
  by_cases hlen : db.length ≤ 1
  · rw [if_pos hlen] at h
    simp only [pure, Except.pure, Except.ok.injEq] at h
    subst h
    rw [hsnd]
  · rw [if_neg hlen] at h
    cases hks : mapOption (fun p =>
        match p.1 with
        | JVal.str s => some (s, p.2)
        | _ => none) keyed with
    | none => rw [hks] at h; simp at h
    | some ks =>
        rw [hks] at h
        simp only [pure, Except.pure, Except.ok.injEq] at h
        subst h
        have hks_snd : ks.map Prod.snd = keyed.map Prod.snd := by
          refine mapOption_snd _ keyed ks ?_ hks
          intro a b hb
          cases ha : a.1 with
          | str s => rw [ha] at hb; simp only [Option.some.injEq] at hb; rw [← hb]
          | null => rw [ha] at hb; simp at hb
          | boolean b2 => rw [ha] at hb; simp at hb
          | num n2 => rw [ha] at hb; simp at hb
          | arr l2 => rw [ha] at hb; simp at hb
          | obj l2 => rw [ha] at hb; simp at hb
        have hperm : (ks.insertionSort (fun a b => strLEr a.1 b.1)).Perm ks :=
          List.perm_insertionSort _ ks
        calc ((ks.insertionSort (fun a b => strLEr a.1 b.1)).map Prod.snd).Perm
              (ks.map Prod.snd) := hperm.map Prod.snd
          _ = db := by rw [hks_snd, hsnd]

/-- The list-index assignment keeps every record's history fixed point
(the assignment writes only `list_index`) and preserves the key list. -/
theorem assignIndexes_preserves (l : List (String × Rec)) :
    ∀ (db : Store) (i : Int) (out : Store × Int),
    (∀ p ∈ l, dGet db p.1 = some p.2) →
    ((l.map Prod.fst).Nodup) →
    assignIndexes db l i = .ok out →
    (∀ k r, dGet db k = some r → RecHistOK r →
        ∃ r', dGet out.1 k = some r' ∧ RecHistOK r') ∧
    out.1.map Prod.fst = db.map Prod.fst := by
  induction l with
  | nil =>
      intro db i out _ _ h
      simp only [assignIndexes, Except.ok.injEq] at h
      subst h
      exact ⟨fun k r hk hOK => ⟨r, hk, hOK⟩, rfl⟩
  | cons e rest ih =>
      intro db i out hl hnd h
      unfold assignIndexes at h
      obtain ⟨r1, hr1, h⟩ := exceptBind_ok h
      have hhead : dGet db e.1 = some e.2 := hl e (List.mem_cons_self ..)
      simp only [List.map_cons, List.nodup_cons] at hnd
      have hl' : ∀ p ∈ rest, dGet (dSet db e.1 r1) p.1 = some p.2 := by
        intro p hp
        have hne : p.1 ≠ e.1 := fun he => hnd.1 (he ▸ List.mem_map.mpr ⟨p, hp, rfl⟩)
        rw [dGet_dSet_ne db e.1 p.1 r1 hne]
        exact hl p (List.mem_cons_of_mem _ hp)
      obtain ⟨hpres, hkeys⟩ := ih (dSet db e.1 r1) (i + 1) out hl' hnd.2 h
      have hkeys0 : (dSet db e.1 r1).map Prod.fst = db.map Prod.fst :=
        keys_dSet_of_mem db e.1 r1 (by simp [hhead])
      refine ⟨?_, hkeys.trans hkeys0⟩
      intro k r hk hOK
      by_cases he : k = e.1
      · subst he
        have hre : r = e.2 := by
          rw [hk] at hhead
          exact Option.some.inj hhead
        subst hre
        have hr1OK : RecHistOK r1 :=
          meta_set_val_preserves e.2 r1 meta_list_index_key _ (by decide) hr1 hOK
        exact hpres e.1 r1 (dGet_dSet_self db e.1 r1) hr1OK
      · refine hpres k r ?_ hOK
        rw [dGet_dSet_ne db e.1 k r1 he]
        exact hk

theorem store_meta_set_frame (db : Store) (k : String) (v : JVal) (id : String)
    (hid : id ≠ meta_key) : dGet (store_meta_set db k v) id = dGet db id := by
  unfold store_meta_set
  by_cases hm : dMem db meta_key
  · rw [if_pos hm, dGet_dSet_ne _ _ _ _ hid]
  · rw [if_neg hm, dGet_dSet_ne _ _ _ _ hid, dGet_dSet_ne _ _ _ _ hid]

theorem store_meta_set_mem (db : Store) (k : String) (v : JVal) :
    dMem (store_meta_set db k v) meta_key = true := by
  unfold store_meta_set dMem
  by_cases hm : dMem db meta_key <;> simp [hm, dGet_dSet_self]

theorem storeVersion_set (db : Store) :
    storeVersion (store_meta_set db meta_version_key (.num 4)) = .ok 4 := by
  unfold storeVersion store_meta_set
  by_cases hm : dMem db meta_key <;>
    simp [hm, dGet_dSet_self, pyInt]

theorem storeVersion_set_other (db : Store) (k : String) (v : JVal)
    (hk : k ≠ meta_version_key) :
    storeVersion (store_meta_set db k v) = storeVersion db := by
  unfold storeVersion store_meta_set
  by_cases hm : dMem db meta_key
  · rw [if_pos hm, dGet_dSet_self]
    simp only [Option.getD_some]
    rw [dGet_dSet_ne _ _ _ _ (Ne.symm hk)]
  · rw [if_neg hm, dGet_dSet_self]
    simp only [Option.getD_some]
    rw [dGet_dSet_ne _ _ _ _ (Ne.symm hk)]
    unfold dMem at hm
    cases hdm : dGet db meta_key with
    | none => simp [dGet_dSet_self, dGet]
    | some mr => rw [hdm] at hm; simp at hm

theorem storeVersion_congr (db db' : Store)
    (h : dGet db meta_key = dGet db' meta_key) :
    storeVersion db = storeVersion db' := by
  unfold storeVersion
  rw [h]

theorem mem_all_ids (db : Store) (id : String) :
    id ∈ all_ids db ↔ id ∈ db.map Prod.fst ∧ id ≠ meta_key := by
  simp [all_ids, List.mem_filter]

/-- Whatever branch ran, a successful `migrateRecord` ends with the
history pass, so the record it returns is a history fixed point. -/
theorem migrateRecord_post (dbv : Int) (r0 : Rec) (c0 : MigCounts) (d0 : Bool)
    (out : Rec × MigCounts × Bool)
    (h : migrateRecord dbv r0 c0 d0 = .ok out) : RecHistOK out.1 := by
  unfold migrateRecord at h
  obtain ⟨s2, hs2, h⟩ := exceptBind_ok h
  obtain ⟨s3, hs3, h⟩ := exceptBind_ok h
  obtain ⟨s5, hs5, h⟩ := exceptBind_ok h
  simp only [pure, Except.pure, Except.ok.injEq] at h
  subst h
  exact histPass_post _ s5.1 s5.2 hs5

/-- After the per-record loop, every processed identifier holds a
history-fixed-point record, untouched keys read as before, and the key
list is unchanged. -/
theorem migrateAll_post (dbv : Int) (ids : List String) :
    ∀ (db : Store) (c : MigCounts) (d : Bool) (out : Store × MigCounts × Bool),
    (∀ id ∈ ids, (dGet db id).isSome) →
    migrateAll dbv ids db c d = .ok out →
    (∀ id ∈ ids, ∃ r, dGet out.1 id = some r ∧ RecHistOK r) ∧
    (∀ k, k ∉ ids → dGet out.1 k = dGet db k) ∧
    out.1.map Prod.fst = db.map Prod.fst := by
  induction ids with
  | nil =>
      intro db c d out _ h
      simp only [migrateAll, Except.ok.injEq] at h
      subst h
      exact ⟨by simp, fun k _ => rfl, rfl⟩
  | cons id rest ih =>
      intro db c d out hbind h
      unfold migrateAll at h
      obtain ⟨s, hs, h⟩ := exceptBind_ok h
      have hrOK : RecHistOK s.1 := migrateRecord_post dbv _ c d s hs
      have hkeys : (dSet db id s.1).map Prod.fst = db.map Prod.fst :=
        keys_dSet_of_mem db id s.1 (hbind id (List.mem_cons_self ..))
      have hbind' : ∀ id' ∈ rest, (dGet (dSet db id s.1) id').isSome := by
        intro id' h'
        by_cases he : id' = id
        · subst he
          simp [dGet_dSet_self]
        · rw [dGet_dSet_ne db id id' s.1 he]
          exact hbind id' (List.mem_cons_of_mem _ h')
      obtain ⟨hin, hout, hkeys'⟩ := ih _ _ _ out hbind' h
      refine ⟨?_, ?_, hkeys'.trans hkeys⟩
      · intro id' h'
        rcases List.mem_cons.mp h' with he | hmem
        · subst he
          by_cases hr : id' ∈ rest
          · exact hin id' hr
          · refine ⟨s.1, ?_, hrOK⟩
            rw [hout id' hr, dGet_dSet_self]
        · exact hin id' hmem
      · intro k hk
        have hk1 : k ≠ id := fun he => hk (he ▸ List.mem_cons_self ..)
        have hk2 : k ∉ rest := fun hm => hk (List.mem_cons_of_mem _ hm)
        rw [hout k hk2, dGet_dSet_ne db id k s.1 hk1]

/-- A successful first run of `_migrate` on a store with duplicate-free
keys establishes exactly the state that `migrate_of_migrated` consumes:
the reserved entry exists, the stored version is 4, and every record is
a history fixed point. -/
theorem migrate_post (db0 : Store) (d0 : Bool) (db1 : Store) (d1 : Bool)
    (hnd : (db0.map Prod.fst).Nodup)
    (h : migrate db0 d0 = .ok (db1, d1)) :
    dMem db1 meta_key = true ∧ storeVersion db1 = .ok 4 ∧
    ∀ id ∈ all_ids db1, ∃ r, dGet db1 id = some r ∧ RecHistOK r := by
  obtain ⟨dbA, dA, hA, hAmem, hAnd⟩ :
      ∃ dbA dA, (if dMem db0 meta_key then (db0, d0) else (dSet db0 meta_key [], true))
          = (dbA, dA) ∧ dMem dbA meta_key = true ∧ (dbA.map Prod.fst).Nodup := by
    by_cases hm : dMem db0 meta_key
    · exact ⟨db0, d0, if_pos hm, hm, hnd⟩
    · refine ⟨dSet db0 meta_key [], true, if_neg hm, ?_, ?_⟩
      · simp [dMem, dGet_dSet_self]
      · have hnone : dGet db0 meta_key = none := by
          unfold dMem at hm
          cases hg : dGet db0 meta_key with
          | none => rfl
          | some x => rw [hg] at hm; simp at hm
        rw [dSet_of_get_none db0 meta_key [] hnone, List.map_append]
        refine List.Nodup.append hnd (by simp) ?_
        intro a ha hb
        simp only [List.map_cons, List.map_nil, List.mem_singleton] at hb
        subst hb
        have := dGet_isSome_of_mem_keys db0 meta_key ha
        rw [hnone] at this
        simp at this
  simp only [migrate, hA] at h
  obtain ⟨dbv, hver, h⟩ := exceptBind_ok h
  obtain ⟨s2, hall, h⟩ := exceptBind_ok h
  obtain ⟨s3, hs3, h⟩ := exceptBind_ok h
  simp only [pure, Except.pure, Except.ok.injEq, Prod.mk.injEq] at h
  obtain ⟨hdb1, hd1⟩ := h
  have hbindA : ∀ id ∈ all_ids dbA, (dGet dbA id).isSome := fun id hid =>
    dGet_isSome_of_mem_keys dbA id ((mem_all_ids dbA id).mp hid).1
  obtain ⟨hin2, hframe2, hkeys2⟩ := migrateAll_post dbv (all_ids dbA) dbA {} dA s2 hbindA hall
  have hmetaNotIn : meta_key ∉ all_ids dbA := fun hmem =>
    ((mem_all_ids dbA meta_key).mp hmem).2 rfl
  have hmeta2 : dGet s2.1 meta_key = dGet dbA meta_key := hframe2 meta_key hmetaNotIn
  have hver2 : storeVersion s2.1 = .ok dbv := (storeVersion_congr _ _ hmeta2).trans hver
  have hdmem2 : dMem s2.1 meta_key = true := by
    unfold dMem at hAmem ⊢
    rw [hmeta2]
    exact hAmem
  by_cases hv2 : dbv < 2
  · rw [if_pos hv2] at hs3
    obtain ⟨srt, hsrt, hs3⟩ := exceptBind_ok hs3
    obtain ⟨sa, hsa, hs3⟩ := exceptBind_ok hs3
    simp only [pure, Except.pure, Except.ok.injEq] at hs3
    subst hs3
    have hperm := sortByAdded_perm s2.1 srt hsrt
    have hnd2 : (s2.1.map Prod.fst).Nodup := hkeys2 ▸ hAnd
    have hsrtmem : ∀ p ∈ srt, dGet s2.1 p.1 = some p.2 := by
      intro p hp
      exact dGet_of_mem_nodup s2.1 p.1 p.2 (hperm.mem_iff.mp hp) hnd2
    have hsrtnd : (srt.map Prod.fst).Nodup :=
      ((hperm.map Prod.fst).nodup_iff).mpr hnd2
    obtain ⟨hpres, hkeysA⟩ := assignIndexes_preserves srt s2.1 1 sa hsrtmem hsrtnd hsa
    have h4 : dbv ≠ DB_VERSION := by
      simp only [DB_VERSION]
      omega
    rw [if_pos h4, if_pos hv2] at hdb1
    subst hdb1
    refine ⟨store_meta_set_mem .., ?_, ?_⟩
    · rw [storeVersion_set_other _ _ _ (by decide)]
      exact storeVersion_set _
    · intro id hid
      have hidne : id ≠ meta_key := ((mem_all_ids _ id).mp hid).2
      have hframe : dGet (store_meta_set
            (store_meta_set (sa.1, sa.2, true).1 meta_version_key (.num DB_VERSION), true).1
            meta_next_list_index_key (.num (sa.1, sa.2, true).2.1)) id = dGet sa.1 id := by
        rw [store_meta_set_frame _ _ _ _ hidne, store_meta_set_frame _ _ _ _ hidne]
      have hsome : (dGet sa.1 id).isSome := by
        rw [← hframe]
        exact dGet_isSome_of_mem_keys _ id ((mem_all_ids _ id).mp hid).1
      have hidkeysSa : id ∈ sa.1.map Prod.fst := mem_keys_of_dGet_isSome _ id hsome
      rw [hkeysA, hkeys2] at hidkeysSa
      obtain ⟨r2, hr2, hr2OK⟩ := hin2 id ((mem_all_ids dbA id).mpr ⟨hidkeysSa, hidne⟩)
      obtain ⟨r3, hr3, hr3OK⟩ := hpres id r2 hr2 hr2OK
      exact ⟨r3, by rw [hframe]; exact hr3, hr3OK⟩
  · rw [if_neg hv2] at hs3
    simp only [pure, Except.pure, Except.ok.injEq] at hs3
    subst hs3
    by_cases hv4 : dbv = DB_VERSION
    · have hne : ¬ (dbv ≠ DB_VERSION) := fun hne => hne hv4
      rw [if_neg hne, if_neg hv2] at hdb1
      subst hdb1
      refine ⟨hdmem2, ?_, ?_⟩
      · rw [hver2, hv4]
        rfl
      · intro id hid
        refine hin2 id ?_
        rw [mem_all_ids] at hid ⊢
        exact ⟨hkeys2 ▸ hid.1, hid.2⟩
    · rw [if_pos hv4, if_neg hv2] at hdb1
      subst hdb1
      refine ⟨store_meta_set_mem .., storeVersion_set _, ?_⟩
      intro id hid
      have hidne : id ≠ meta_key := ((mem_all_ids _ id).mp hid).2
      have hframe := store_meta_set_frame (s2.1, 1, s2.2.2).1 meta_version_key
        (.num DB_VERSION) id hidne
      have hsome : (dGet s2.1 id).isSome := by
        rw [← hframe]
        exact dGet_isSome_of_mem_keys _ id ((mem_all_ids _ id).mp hid).1
      have hidkeys : id ∈ s2.1.map Prod.fst := mem_keys_of_dGet_isSome _ id hsome
      rw [hkeys2] at hidkeys
      obtain ⟨r2, hr2, hr2OK⟩ := hin2 id ((mem_all_ids dbA id).mpr ⟨hidkeys, hidne⟩)
      exact ⟨r2, by rw [hframe]; exact hr2, hr2OK⟩

/-- Claim C5: running the migration pipeline a second time on a store
that a previous successful run has already migrated produces no changes
to the store and does not mark the store dirty: with the dirty flag
cleared before the second run, `_migrate` returns the store unchanged
and the flag still clear.  (Keys of a Python dict are unique, hence the
`Nodup` hypothesis on the initial store.) -/
theorem c5_migrate_idempotent (db0 : Store) (d0 : Bool) (db1 : Store) (d1 : Bool)
    (hnd : (db0.map Prod.fst).Nodup)
    (h : migrate db0 d0 = .ok (db1, d1)) :
    migrate db1 false = .ok (db1, false) := by
  obtain ⟨hmeta, hver, hrecs⟩ := migrate_post db0 d0 db1 d1 hnd h
  exact migrate_of_migrated db1 false hmeta hver hrecs

/-- C5 at a concrete input: a version-4 store whose record history is
unsorted with a duplicate is rewritten (and marked dirty) by the first
run, and the second run is the identity with the dirty flag clear. -/
theorem c5_witness :
    migrate c5db true = .ok (c5db', true) ∧ migrate c5db' false = .ok (c5db', false) :=
  ⟨by decide, c5_migrate_idempotent c5db true c5db' true (by decide) (by decide)⟩

end EpmDb
